import Mathlib

/-!
# Geometry primitives of the `geo` and `geo2` packages

A shallow embedding of `geo/utils.go`, `geo/barycentric.go` and `geo2/aabb.go` over an arbitrary linearly ordered field `K`
("exact arithmetic"): every `float32` becomes an element of `K`, every vector a
record of coordinates, every in-place update an explicit new value.  The
definitions are computable at `K = ℚ`.  Matrices are indexed by row and column
(`m r k` is the flat entry `m[3*k+r]`), bounded loops are folds over their index
range, and the square root used by `SymSchur2` is a parameter, instantiated with
`Real.sqrt` for the statements in exact real arithmetic.
-/

namespace glm

/-- Modelled from the spec: the 2D vector type of the vector foundation
(`glm.Vec2`, a pair of coordinates with value semantics). -/
@[ext]
structure Vec2 (K : Type) where
  x : K
  y : K
deriving DecidableEq

/-- Modelled from the spec: the 3D vector type of the vector foundation
(`glm.Vec3`, a triple of coordinates with value semantics). -/
@[ext]
structure Vec3 (K : Type) where
  x : K
  y : K
  z : K
deriving DecidableEq

variable {K : Type} [LinearOrderedField K]

/-- Modelled from the spec: `Vec2.Sub`, componentwise subtraction. -/
def Vec2.Sub (v w : Vec2 K) : Vec2 K := ⟨v.x - w.x, v.y - w.y⟩

/-- Modelled from the spec: `Vec2.Dot`, the dot product. -/
def Vec2.Dot (v w : Vec2 K) : K := v.x * w.x + v.y * w.y

/-- Modelled from the spec: `Vec2.Len2`, the squared length. -/
def Vec2.Len2 (v : Vec2 K) : K := v.x * v.x + v.y * v.y

/-- Modelled from the spec: `Vec2.AddScaledVec`, the in-place update `v += s*w`,
returned as a new value. -/
def Vec2.AddScaledVec (v : Vec2 K) (s : K) (w : Vec2 K) : Vec2 K :=
  ⟨v.x + s * w.x, v.y + s * w.y⟩

/-- Modelled from the spec: `Vec3.Sub`, componentwise subtraction. -/
def Vec3.Sub (v w : Vec3 K) : Vec3 K := ⟨v.x - w.x, v.y - w.y, v.z - w.z⟩

/-- Modelled from the spec: `Vec3.Dot`, the dot product. -/
def Vec3.Dot (v w : Vec3 K) : K := v.x * w.x + v.y * w.y + v.z * w.z

/-- Modelled from the spec: `Vec3.Len2`, the squared length. -/
def Vec3.Len2 (v : Vec3 K) : K := v.x * v.x + v.y * v.y + v.z * v.z

/-- Modelled from the spec: `Vec3.Cross`, the cross product. -/
def Vec3.Cross (v w : Vec3 K) : Vec3 K :=
  ⟨v.y * w.z - v.z * w.y, v.z * w.x - v.x * w.z, v.x * w.y - v.y * w.x⟩

/-- Modelled from the spec: `Vec3.AddScaledVec`, the in-place update `v += s*w`,
returned as a new value. -/
def Vec3.AddScaledVec (v : Vec3 K) (s : K) (w : Vec3 K) : Vec3 K :=
  ⟨v.x + s * w.x, v.y + s * w.y, v.z + s * w.z⟩

end glm

namespace math

variable {K : Type} [LinearOrderedField K]

/-- Modelled from the spec: `math.Clamp(x, lo, hi)` of the scalar foundation,
which clamps `x` to the interval `[lo, hi]`. -/
def Clamp (x lo hi : K) : K :=
  if x < lo then lo else if x > hi then hi else x

/-- Modelled from the spec: `math.MaxFloat32`, the largest finite `float32`,
`(2 - 2^-23) * 2^127`. -/
def MaxFloat32 : K := 340282346638528859811704183484516925440

end math

namespace geo

open glm

variable {K : Type} [LinearOrderedField K]

/-- The five results `(s, t, u, c1, c2)` of `ClosestPointSegmentSegment`. -/
structure SegSegResult (K : Type) where
  s : K
  t : K
  u : K
  c1 : Vec3 K
  c2 : Vec3 K
deriving DecidableEq

/-- `ClosestPointSegmentSegment` of `geo/utils.go`. -/
def ClosestPointSegmentSegment (p1 q1 p2 q2 : Vec3 K) : SegSegResult K :=
  let epsilon : K := 0
  let d1 := q1.Sub p1
  let d2 := q2.Sub p2
  let r := p1.Sub p2
  let a := d1.Len2
  let e := d2.Len2
  let f := d2.Dot r
  if a ≤ epsilon ∧ e ≤ epsilon then
    ⟨0, 0, r.Len2, p1, p2⟩
  else
    let st : K × K :=
      if a ≤ epsilon then
        (0, math.Clamp (f / e) 0 1)
      else
        let c := d1.Dot r
        if e ≤ epsilon then
          (math.Clamp (-c / a) 0 1, 0)
        else
          let b := d1.Dot d2
          let denom := a * e - b * b
          let s0 : K := if denom ≠ 0 then math.Clamp ((b * f - c * e) / denom) 0 1 else 0
          let t0 := (b * s0 + f) / e
          if t0 < 0 then
            (math.Clamp (-c / a) 0 1, 0)
          else
            (math.Clamp ((b - c) / a) 0 1, 1)
    let c1 := p1.AddScaledVec st.1 d1
    let c2 := p2.AddScaledVec st.1 d2
    ⟨st.1, st.2, (c1.Sub c2).Len2, c1, c2⟩

/-- `SqDistPointSegment2` of `geo/utils.go`. -/
def SqDistPointSegment2 (a b c : Vec2 K) : K :=
  let ab := b.Sub a
  let ac := c.Sub a
  let bc := b.Sub c
  let e := ac.Dot ab
  if e ≤ 0 then ac.Len2
  else
    let f := ab.Len2
    if e ≥ f then bc.Len2
    else ac.Len2 - e * e / f

/-- `SqDistPointSegment3` of `geo/utils.go`. -/
def SqDistPointSegment3 (a b c : Vec3 K) : K :=
  let ab := b.Sub a
  let ac := c.Sub a
  let bc := b.Sub c
  let e := ac.Dot ab
  if e ≤ 0 then ac.Len2
  else
    let f := ab.Len2
    if e ≥ f then bc.Len2
    else ac.Len2 - e * e / f

/-- `ClosestPointOnLine3` of `geo/utils.go`: the pair `(t, point)`. -/
def ClosestPointOnLine3 (a b c : Vec3 K) : K × Vec3 K :=
  let ab := b.Sub a
  let cma := c.Sub a
  let t := cma.Dot ab
  if t ≤ 0 then (0, a)
  else
    let denom := ab.Dot ab
    if t ≥ denom then (1, b)
    else
      let t1 := t / denom
      (t1, a.AddScaledVec t1 ab)

/-- `ClosestPointOnLine2` of `geo/utils.go`: the pair `(t, point)`. -/
def ClosestPointOnLine2 (a b c : Vec2 K) : K × Vec2 K :=
  let ab := b.Sub a
  let cma := c.Sub a
  let t := cma.Dot ab
  if t ≤ 0 then (0, a)
  else
    let denom := ab.Dot ab
    if t ≥ denom then (1, b)
    else
      let t1 := t / denom
      (t1, a.AddScaledVec t1 ab)

/-- `ClosestPointInTriangle` of `geo/utils.go`.  As in the source, `d4` is the
dot product of `ac` with `ap`. -/
def ClosestPointInTriangle (p a b c : Vec3 K) : Vec3 K :=
  let ab := b.Sub a
  let ac := c.Sub a
  let ap := p.Sub a
  let d1 := ab.Dot ap
  let d2 := ac.Dot ap
  if d1 ≤ 0 ∧ d2 ≤ 0 then a
  else
    let bp := p.Sub b
    let d3 := ab.Dot bp
    let d4 := ac.Dot ap
    if d3 ≥ 0 ∧ d4 ≤ d3 then b
    else
      let vc := d1 * d4 - d3 * d2
      if vc ≤ 0 ∧ d1 ≥ 0 ∧ d3 ≤ 0 then
        a.AddScaledVec (d1 / (d1 - d3)) ab
      else
        let cp := p.Sub c
        let d5 := ab.Dot cp
        let d6 := ac.Dot cp
        if d6 ≥ 0 ∧ d5 ≤ d6 then c
        else
          let vb := d5 * d2 - d1 * d6
          if vb ≤ 0 ∧ d2 ≥ 0 ∧ d6 ≤ 0 then
            a.AddScaledVec (d2 / (d2 - d6)) ac
          else
            let va := d3 * d6 - d5 * d4
            if va ≤ 0 ∧ (d4 - d3) ≥ 0 ∧ (d5 - d6) ≥ 0 then
              let bc := c.Sub b
              b.AddScaledVec ((d4 - d3) / ((d4 - d3) + (d5 - d6))) bc
            else
              let denom := 1 / (va + vb + vc)
              let v := vb * denom
              let w := vc * denom
              (a.AddScaledVec v ab).AddScaledVec w ac

/-- `PointOutsideOfPlane` of `geo/utils.go`. -/
def PointOutsideOfPlane (p a b c d : Vec3 K) : Bool :=
  let ap := p.Sub a
  let ad := d.Sub a
  let ab := b.Sub a
  let ac := c.Sub a
  let abac := ab.Cross ac
  let signp := ap.Dot abac
  let signd := ad.Dot abac
  decide (signp * signd < 0)

/-- One face test of `ClosestPointInTetrahedron`: the state is the pair
`(closestPoint, bestSqDist)`, updated when `p` is outside the plane of the face
`(x, y, z)` (with `o` the opposite vertex) and the face candidate is nearer. -/
def tetraFaceStep (p x y z o : Vec3 K) (st : Vec3 K × K) : Vec3 K × K :=
  if PointOutsideOfPlane p x y z o then
    let q := ClosestPointInTriangle p x y z
    let pq := q.Sub p
    let sqDist := pq.Len2
    if sqDist < st.2 then (q, sqDist) else st
  else st

/-- `ClosestPointInTetrahedron` of `geo/utils.go`: the four face tests in the
source order, starting from `(p, MaxFloat32)`. -/
def ClosestPointInTetrahedron (p a b c d : Vec3 K) : Vec3 K :=
  let st0 : Vec3 K × K := (p, math.MaxFloat32)
  let st1 := tetraFaceStep p a b c d st0
  let st2 := tetraFaceStep p a c d b st1
  let st3 := tetraFaceStep p a d b c st2
  let st4 := tetraFaceStep p b d c a st3
  st4.1

/-- The weighted combination `wa*a + wb*b + wc*c + wd*d` of four points, used
to state that a point lies in a tetrahedron (weights non-negative, summing to 1). -/
def weightedSum4 (wa wb wc wd : K) (a b c d : Vec3 K) : Vec3 K :=
  ⟨wa * a.x + wb * b.x + wc * c.x + wd * d.x,
   wa * a.y + wb * b.y + wc * c.y + wd * d.y,
   wa * a.z + wb * b.z + wc * c.z + wd * d.z⟩

/-- Membership in the tetrahedron `abcd`: a weighted combination of the vertices
with non-negative weights summing to one. -/
def InTetrahedron (q a b c d : Vec3 K) : Prop :=
  ∃ wa wb wc wd : K, 0 ≤ wa ∧ 0 ≤ wb ∧ 0 ≤ wc ∧ 0 ≤ wd ∧ wa + wb + wc + wd = 1 ∧
    q = weightedSum4 wa wb wc wd a b c d

end geo

namespace glm

variable {K : Type} [LinearOrderedField K]

/-- Modelled from the spec: the indexed read `v[i]` of a `glm.Vec2`. -/
def Vec2.getIdx (v : Vec2 K) (i : Fin 2) : K := if i = 0 then v.x else v.y

/-- Modelled from the spec: the indexed write `v[i] = x` of a `glm.Vec2`. -/
def Vec2.setIdx (v : Vec2 K) (i : Fin 2) (x : K) : Vec2 K :=
  if i = 0 then ⟨x, v.y⟩ else ⟨v.x, x⟩

/-- Modelled from the spec: `Vec3.AddWith`, the in-place update `v += w`, returned
as a new value. -/
def Vec3.AddWith (v w : Vec3 K) : Vec3 K := ⟨v.x + w.x, v.y + w.y, v.z + w.z⟩

/-- Modelled from the spec: `Vec3.MulWith`, the in-place update `v *= s`, returned
as a new value. -/
def Vec3.MulWith (v : Vec3 K) (s : K) : Vec3 K := ⟨v.x * s, v.y * s, v.z * s⟩

/-- Modelled from the spec: the 3×3 matrix type `glm.Mat3`, a flat array of nine
entries in which index `3*k + r` holds row `r`, column `k`; the entry `m[3*k+r]`
is `m r k` here. -/
abbrev Mat3 (K : Type) := Matrix (Fin 3) (Fin 3) K

/-- Modelled from the spec: the 2×3 affine matrix type `glm.Mat2x3`, a flat array
of six entries in which index `2*k + r` holds row `r`, column `k` (column 2, the
entries `t[4]`, `t[5]`, is the translation); the entry `t[2*k+r]` is `t r k`
here. -/
abbrev Mat2x3 (K : Type) := Matrix (Fin 2) (Fin 3) K

/-- Modelled from the spec: the indexed write `m[3*k+r] = x` of a `glm.Mat3`. -/
def Mat3.setAt (m : Mat3 K) (r k : Fin 3) (x : K) : Mat3 K :=
  fun i j => if i = r ∧ j = k then x else m i j

/-- Modelled from the spec: `Mat3.Mul3`, the standard 3×3 matrix product. -/
def Mat3.Mul3 (a b : Mat3 K) : Mat3 K := a * b

/-- Modelled from the spec: `Mat3.Transposed`, the transpose. -/
def Mat3.Transposed (a : Mat3 K) : Mat3 K := Matrix.transpose a

end glm

namespace math

variable {K : Type} [LinearOrderedField K]

/-- Modelled from the spec: `math.Abs`, the absolute value. -/
def Abs (x : K) : K := |x|

end math

namespace geo

open glm

variable {K : Type} [LinearOrderedField K]

/-- The loop of `PointFarthestFromEdge`: `n` is the loop counter and the state is
`(index, maxVal, rightMostVal)`.  The subtraction and the dot product of the
vector foundation, as the code computes them, are the parameters `sub` and
`dot`. -/
def pointFarthestLoop (sub : Vec2 K → Vec2 K → Vec2 K) (dot : Vec2 K → Vec2 K → K)
    (a e eperp : Vec2 K) : List (Vec2 K) → Nat → Int × K × K → Int × K × K
  | [], _, st => st
  | pt :: rest, n, st =>
    let pma := sub pt a
    let d := dot pma eperp
    let r := dot pma e
    if d > st.2.1 ∨ (d = st.2.1 ∧ r > st.2.2) then
      pointFarthestLoop sub dot a e eperp rest (n + 1) ((n : Int), d, r)
    else
      pointFarthestLoop sub dot a e eperp rest (n + 1) st

/-- `PointFarthestFromEdge` of `geo/utils.go`.  The operations `Sub` and `Dot` of
the vector foundation, as the code computes them (in `float32`, with rounding),
are the parameters `sub` and `dot`; with `Vec2.Sub` and `Vec2.Dot` they are the
exact operations. -/
def PointFarthestFromEdge (sub : Vec2 K → Vec2 K → Vec2 K) (dot : Vec2 K → Vec2 K → K)
    (a b : Vec2 K) (points : List (Vec2 K)) : Int :=
  let e := sub b a
  let eperp : Vec2 K := ⟨-e.y, e.x⟩
  (pointFarthestLoop sub dot a e eperp points 0 (-1, 0, 0)).1

/-- The state `(imin, imax, minproj, maxproj)` of the extreme-point scans. -/
structure ExtremeState (K : Type) where
  imin : Int
  imax : Int
  minproj : K
  maxproj : K

/-- One iteration of the extreme-point scans, for the projection `proj` of
`points[n]`: the two tests run one after the other. -/
def extremeStep (n : Nat) (proj : K) (st : ExtremeState K) : ExtremeState K :=
  let st1 : ExtremeState K :=
    if proj < st.minproj then { st with minproj := proj, imin := (n : Int) } else st
  if proj > st1.maxproj then { st1 with maxproj := proj, imax := (n : Int) } else st1

/-- The loop of the extreme-point scans over the projections of the points. -/
def extremeLoop : List K → Nat → ExtremeState K → ExtremeState K
  | [], _, st => st
  | proj :: rest, n, st => extremeLoop rest (n + 1) (extremeStep n proj st)

/-- `ExtremePointsAlongDirection2` of `geo/utils.go`: the pair `(imin, imax)`.
The dot product of the vector foundation, as the code computes it (in
`float32`, with rounding), is the parameter `dot`; with `Vec2.Dot` it is the
exact dot product. -/
def ExtremePointsAlongDirection2 (dot : Vec2 K → Vec2 K → K) (direction : Vec2 K)
    (points : List (Vec2 K)) : Int × Int :=
  let st := extremeLoop (points.map fun pt => dot pt direction) 0
    ⟨-1, -1, math.MaxFloat32, -math.MaxFloat32⟩
  (st.imin, st.imax)

/-- `ExtremePointsAlongDirection3` of `geo/utils.go`: the pair `(imin, imax)`.
The dot product of the vector foundation, as the code computes it (in
`float32`, with rounding), is the parameter `dot`; with `Vec3.Dot` it is the
exact dot product. -/
def ExtremePointsAlongDirection3 (dot : Vec3 K → Vec3 K → K) (direction : Vec3 K)
    (points : List (Vec3 K)) : Int × Int :=
  let st := extremeLoop (points.map fun pt => dot pt direction) 0
    ⟨-1, -1, math.MaxFloat32, -math.MaxFloat32⟩
  (st.imin, st.imax)

/-- The invariant of the loop of `PointFarthestFromEdge` after the points `pre`
have been visited: no visited point passes the test against the tracked pair
`(maxVal, rightMostVal)`, and the index is either still `-1` (with the initial
pair `(0, 0)`) or points at a visited point whose pair is the tracked one and
lies above `(0, 0)`. -/
def FarthestInv (sub : Vec2 K → Vec2 K → Vec2 K) (dot : Vec2 K → Vec2 K → K)
    (a e eperp : Vec2 K) (pre : List (Vec2 K)) (st : Int × K × K) : Prop :=
  (∀ pt ∈ pre, ¬ (dot (sub pt a) eperp > st.2.1 ∨
      (dot (sub pt a) eperp = st.2.1 ∧ dot (sub pt a) e > st.2.2))) ∧
  ((st.1 = -1 ∧ st.2.1 = 0 ∧ st.2.2 = 0) ∨
    ∃ (i : Nat) (q : Vec2 K), st.1 = (i : Int) ∧ pre[i]? = some q ∧
      dot (sub q a) eperp = st.2.1 ∧ dot (sub q a) e = st.2.2 ∧
      (0 < st.2.1 ∨ (st.2.1 = 0 ∧ 0 < st.2.2)))

/-- The invariant of the extreme-point scan after the projections `pre` have been
visited: the tracked minimum and maximum bound every visited projection, and
each index is either still `-1` (with the initial bound) or points at a visited
projection equal to the tracked value. -/
def ExtremeInv (pre : List K) (st : ExtremeState K) : Prop :=
  (∀ x ∈ pre, st.minproj ≤ x) ∧ (∀ x ∈ pre, x ≤ st.maxproj) ∧
  ((st.imin = -1 ∧ st.minproj = math.MaxFloat32) ∨
    ∃ i : Nat, st.imin = (i : Int) ∧ pre[i]? = some st.minproj) ∧
  ((st.imax = -1 ∧ st.maxproj = -math.MaxFloat32) ∨
    ∃ j : Nat, st.imax = (j : Int) ∧ pre[j]? = some st.maxproj)

/-- The six accumulators of `CovarianceMatrix3`. -/
structure CovSums (K : Type) where
  e00 : K
  e11 : K
  e22 : K
  e01 : K
  e02 : K
  e12 : K

/-- One iteration of the second loop of `CovarianceMatrix3`: the point is
translated by the centroid `c` and its products are added to the sums. -/
def covarianceStep (c : Vec3 K) (e : CovSums K) (pt : Vec3 K) : CovSums K :=
  let p := pt.Sub c
  { e00 := e.e00 + p.x * p.x, e11 := e.e11 + p.y * p.y, e22 := e.e22 + p.z * p.z,
    e01 := e.e01 + p.x * p.y, e02 := e.e02 + p.x * p.z, e12 := e.e12 + p.y * p.z }

/-- `CovarianceMatrix3` of `geo/utils.go`: the matrix `cov` after the call. -/
def CovarianceMatrix3 (cov : Mat3 K) (points : List (Vec3 K)) : Mat3 K :=
  let oon : K := 1 / (points.length : K)
  let c0 : Vec3 K := points.foldl (fun c pt => c.AddWith pt) ⟨0, 0, 0⟩
  let c := c0.MulWith oon
  let e : CovSums K := points.foldl (covarianceStep c) ⟨0, 0, 0, 0, 0, 0⟩
  let cov := Mat3.setAt cov 0 0 (e.e00 * oon)
  let cov := Mat3.setAt cov 1 1 (e.e11 * oon)
  let cov := Mat3.setAt cov 2 2 (e.e22 * oon)
  let cov := Mat3.setAt cov 1 0 (e.e01 * oon)
  let cov := Mat3.setAt cov 2 0 (e.e02 * oon)
  let cov := Mat3.setAt cov 2 1 (e.e12 * oon)
  let cov := Mat3.setAt cov 0 1 (cov 1 0)
  let cov := Mat3.setAt cov 0 2 (cov 2 0)
  Mat3.setAt cov 1 2 (cov 2 1)

/-- `SymSchur2` of `geo/utils.go`: the pair `(c, s)`.  The square root of the
scalar foundation (`math.Sqrt`) is the parameter `sqrt`. -/
def SymSchur2 (sqrt : K → K) (a : Mat3 K) (p q : Fin 3) : K × K :=
  if math.Abs (a p q) > 0.0001 then
    let r := (a q q - a p p) / (2 * a p q)
    let t : K :=
      if r ≥ 0 then 1 / (r + sqrt (1 + r * r))
      else -1 / (-r + sqrt (1 + r * r))
    let c := 1 / sqrt (1 + t * t)
    (c, t * c)
  else
    (1, 0)

/-- The loop `for i { m[3*0+i] = 0; m[3*1+i] = 0; m[3*2+i] = 0; m[3*i+i] = 1 }`
with which `Jacobi` resets `v` and `J` to the identity. -/
def fillIdentity (m : Mat3 K) : Mat3 K :=
  (List.finRange 3).foldl (fun m i =>
    Mat3.setAt (Mat3.setAt (Mat3.setAt (Mat3.setAt m i 0 0) i 1 0) i 2 0) i i 1) m

/-- The search of `Jacobi` for the largest off-diagonal absolute element
`a[p][q]`, starting from `(p, q) = (0, 1)`. -/
def largestOffDiagonal (a : Mat3 K) : Fin 3 × Fin 3 :=
  (List.finRange 3).foldl (fun pq i =>
    (List.finRange 3).foldl (fun pq j =>
      if i = j then pq
      else if math.Abs (a i j) > math.Abs (a pq.1 pq.2) then (i, j) else pq) pq) (0, 1)

/-- The Jacobi rotation matrix `J(p, q, theta)` as `Jacobi` builds it in `J`. -/
def jacobiRotation (J : Mat3 K) (p q : Fin 3) (c s : K) : Mat3 K :=
  let J := fillIdentity J
  let J := Mat3.setAt J p p c
  let J := Mat3.setAt J p q s
  let J := Mat3.setAt J q p (-s)
  Mat3.setAt J q q c

/-- The sum of squares of the off-diagonal elements computed by `Jacobi`. -/
def offDiagonalNorm (a : Mat3 K) : K :=
  (List.finRange 3).foldl (fun off i =>
    (List.finRange 3).foldl (fun off j =>
      if i = j then off else off + a i j * a i j) off) 0

/-- The state of the main loop of `Jacobi`. -/
structure JacobiState (K : Type) where
  a : Mat3 K
  v : Mat3 K
  J : Mat3 K
  prevoff : K

/-- The main loop of `Jacobi`: `fuel` iterations remain and `n` is the loop
counter. -/
def jacobiLoop (sqrt : K → K) : Nat → Nat → JacobiState K → JacobiState K
  | 0, _, st => st
  | fuel + 1, n, st =>
    let pq := largestOffDiagonal st.a
    let cs := SymSchur2 sqrt st.a pq.1 pq.2
    let J := jacobiRotation st.J pq.1 pq.2 cs.1 cs.2
    let v := Mat3.Mul3 st.v J
    let Jt := Mat3.Transposed J
    let Jta := Mat3.Mul3 Jt st.a
    let a := Mat3.Mul3 Jta J
    let off := offDiagonalNorm a
    if n > 2 ∧ off ≥ st.prevoff then
      { a := a, v := v, J := J, prevoff := st.prevoff }
    else
      jacobiLoop sqrt fuel (n + 1) { a := a, v := v, J := J, prevoff := off }

/-- `Jacobi` of `geo/utils.go`: the pair `(a, v)` after the call (`maxIterations`
is 50; `J` and `prevoff` start zeroed). -/
def Jacobi (sqrt : K → K) (a v : Mat3 K) : Mat3 K × Mat3 K :=
  let st := jacobiLoop sqrt 50 0 { a := a, v := fillIdentity v, J := 0, prevoff := 0 }
  (st.a, st.v)

/-- `Barycentric` of `geo/barycentric.go`: the triple `(u, v, w)`.  As in the
source, `d00` is the dot product of `v1` with itself. -/
def Barycentric (a b c p : Vec3 K) : K × K × K :=
  let v0 := b.Sub a
  let v1 := c.Sub a
  let v2 := p.Sub a
  let d00 := v1.Dot v1
  let d01 := v0.Dot v1
  let d11 := v1.Dot v1
  let d20 := v2.Dot v0
  let d21 := v2.Dot v1
  let denom := 1 / (d00 * d11 - d01 * d01)
  let v := (d11 * d20 - d01 * d21) * denom
  let w := (d00 * d21 - d01 * d20) * denom
  let u := 1 - v - w
  (u, v, w)

/-- `IsPointInTriangle` of `geo/barycentric.go`. -/
def IsPointInTriangle (p a b c : Vec3 K) : Bool :=
  let uvw := Barycentric a b c p
  decide (uvw.2.1 ≥ 0 ∧ uvw.2.2 ≥ 0 ∧ uvw.2.1 + uvw.2.2 ≤ 1)

end geo

namespace geo2

open glm

variable {K : Type} [LinearOrderedField K]

/-- `AABB` of `geo2/aabb.go`: an axis-aligned bounding box. -/
structure AABB (K : Type) where
  Center : Vec2 K
  Radius : Vec2 K

/-- `TestAABBAABB` of `geo2/aabb.go`. -/
def TestAABBAABB (a b : AABB K) : Bool :=
  if math.Abs (a.Center.x - b.Center.x) > a.Radius.x + b.Radius.x then false
  else if math.Abs (a.Center.y - b.Center.y) > a.Radius.y + b.Radius.y then false
  else true

/-- `UpdateAABB` of `geo2/aabb.go`: the box `fill` after the call, for `fill`
and `base` two distinct boxes. -/
def UpdateAABB (base fill : AABB K) (t : Mat2x3 K) : AABB K :=
  (List.finRange 2).foldl (fun (fill : AABB K) (i : Fin 2) =>
    let fill : AABB K := ⟨fill.Center.setIdx i (t i 2), fill.Radius⟩
    let fill : AABB K := ⟨fill.Center, fill.Radius.setIdx i 0⟩
    (List.finRange 2).foldl (fun (fill : AABB K) (j : Fin 2) =>
      let tij := t i (Fin.castSucc j)
      let fill : AABB K :=
        ⟨fill.Center.setIdx i (fill.Center.getIdx i + tij * base.Center.getIdx j), fill.Radius⟩
      ⟨fill.Center, fill.Radius.setIdx i (fill.Radius.getIdx i + math.Abs tij * base.Radius.getIdx j)⟩)
      fill) fill

/-- `ClosestPointAABBPoint` of `geo2/aabb.go`. -/
def ClosestPointAABBPoint (a : AABB K) (p : Vec2 K) : Vec2 K :=
  ⟨math.Clamp p.x (a.Center.x - a.Radius.x) (a.Center.x + a.Radius.x),
   math.Clamp p.y (a.Center.y - a.Radius.y) (a.Center.y + a.Radius.y)⟩

/-- `SqDistAABBPoint` of `geo2/aabb.go`. -/
def SqDistAABBPoint (a : AABB K) (p : Vec2 K) : K :=
  let sqDist : K := 0
  let v := p.x
  let min := a.Center.x - a.Radius.x
  let max := a.Center.x + a.Radius.x
  let sqDist := if v < min then sqDist + (min - v) * (min - v) else sqDist
  let sqDist := if v > max then sqDist + (v - max) * (v - max) else sqDist
  let v := p.y
  let min := a.Center.y - a.Radius.y
  let max := a.Center.y + a.Radius.y
  let sqDist := if v < min then sqDist + (min - v) * (min - v) else sqDist
  let sqDist := if v > max then sqDist + (v - max) * (v - max) else sqDist
  sqDist

end geo2

namespace math

variable {K : Type} [LinearOrderedField K]

theorem Clamp_zero_one_nonneg (x : K) : 0 ≤ Clamp x 0 1 := by
  unfold Clamp
  split_ifs with h1 h2
  · exact le_refl 0
  · exact zero_le_one
  · exact not_lt.mp h1

theorem Clamp_zero_one_le_one (x : K) : Clamp x 0 1 ≤ 1 := by
  unfold Clamp
  split_ifs with h1 h2
  · exact zero_le_one
  · exact le_refl 1
  · exact not_lt.mp h2

end math

namespace geo

open glm

variable {K : Type} [LinearOrderedField K]

/-! ## Point–segment queries -/

/-- The three region cases of the squared point–segment distance, for a point
at parameter `x` of a segment of squared length `L`. -/
theorem sqDist_regions_zero (x L : K) (hx0 : 0 ≤ x) (hx1 : x ≤ 1) (hL : 0 ≤ L) :
    (x * L ≤ 0 → x * x * L = 0) ∧ (0 < x * L → x * L ≥ L → (1 - x) * (1 - x) * L = 0) ∧
      (0 < x * L → x * x * L - x * L * (x * L) / L = 0) := by
  refine ⟨fun h => ?_, fun h0 h => ?_, fun h0 => ?_⟩
  · have h2 : x * L = 0 := le_antisymm h (mul_nonneg hx0 hL)
    rw [mul_assoc, h2, mul_zero]
  · have h1 : (1 - x) * L = 0 := by
      have h3 : 0 ≤ (1 - x) * L := mul_nonneg (by linarith) hL
      have h4 : (1 - x) * L ≤ 0 := by linarith
      exact le_antisymm h4 h3
    rw [mul_assoc, h1, mul_zero]
  · have hLpos : L ≠ 0 := by
      rintro rfl
      simp at h0
    field_simp
    ring

/-- C9: a point `c = a + x*(b-a)` with `0 ≤ x ≤ 1` of a segment `ab` (zero length
included) is at squared distance 0 from it, for `SqDistPointSegment2` and
`SqDistPointSegment3`. -/
theorem SqDistPointSegment_on_segment (a b : Vec2 K) (a3 b3 : Vec3 K) (x : K)
    (hx0 : 0 ≤ x) (hx1 : x ≤ 1) :
    SqDistPointSegment2 a b (a.AddScaledVec x (b.Sub a)) = 0 ∧
      SqDistPointSegment3 a3 b3 (a3.AddScaledVec x (b3.Sub a3)) = 0 := by
  constructor
  · have hL : 0 ≤ (b.Sub a).Len2 := by
      simp only [Vec2.Len2, Vec2.Sub]; nlinarith [mul_self_nonneg (b.x - a.x), mul_self_nonneg (b.y - a.y)]
    obtain ⟨r1, r2, r3⟩ := sqDist_regions_zero x _ hx0 hx1 hL
    have he : ((a.AddScaledVec x (b.Sub a)).Sub a).Dot (b.Sub a) = x * (b.Sub a).Len2 := by
      simp only [Vec2.Len2, Vec2.Sub, Vec2.Dot, Vec2.AddScaledVec]; ring
    have hac : ((a.AddScaledVec x (b.Sub a)).Sub a).Len2 = x * x * (b.Sub a).Len2 := by
      simp only [Vec2.Len2, Vec2.Sub, Vec2.Dot, Vec2.AddScaledVec]; ring
    have hbc : (b.Sub (a.AddScaledVec x (b.Sub a))).Len2 = (1 - x) * (1 - x) * (b.Sub a).Len2 := by
      simp only [Vec2.Len2, Vec2.Sub, Vec2.Dot, Vec2.AddScaledVec]; ring
    unfold SqDistPointSegment2
    simp only [he, hac, hbc]
    split_ifs with h1 h2
    · exact r1 h1
    · exact r2 (not_le.mp h1) h2
    · exact r3 (not_le.mp h1)
  · have hL : 0 ≤ (b3.Sub a3).Len2 := by
      simp only [Vec3.Len2, Vec3.Sub]
      nlinarith [mul_self_nonneg (b3.x - a3.x), mul_self_nonneg (b3.y - a3.y),
        mul_self_nonneg (b3.z - a3.z)]
    obtain ⟨r1, r2, r3⟩ := sqDist_regions_zero x _ hx0 hx1 hL
    have he : ((a3.AddScaledVec x (b3.Sub a3)).Sub a3).Dot (b3.Sub a3) = x * (b3.Sub a3).Len2 := by
      simp only [Vec3.Len2, Vec3.Sub, Vec3.Dot, Vec3.AddScaledVec]; ring
    have hac : ((a3.AddScaledVec x (b3.Sub a3)).Sub a3).Len2 = x * x * (b3.Sub a3).Len2 := by
      simp only [Vec3.Len2, Vec3.Sub, Vec3.Dot, Vec3.AddScaledVec]; ring
    have hbc : (b3.Sub (a3.AddScaledVec x (b3.Sub a3))).Len2
        = (1 - x) * (1 - x) * (b3.Sub a3).Len2 := by
      simp only [Vec3.Len2, Vec3.Sub, Vec3.Dot, Vec3.AddScaledVec]; ring
    unfold SqDistPointSegment3
    simp only [he, hac, hbc]
    split_ifs with h1 h2
    · exact r1 h1
    · exact r2 (not_le.mp h1) h2
    · exact r3 (not_le.mp h1)

/-- Witness for C9: the midpoint of the 2D segment (0,0)-(2,0) and of the 3D
segment (0,0,0)-(0,2,0). -/
theorem SqDistPointSegment_on_segment_witness :
    (0 : ℚ) ≤ 1 / 2 ∧ (1 / 2 : ℚ) ≤ 1 ∧
      SqDistPointSegment2 (⟨0, 0⟩ : Vec2 ℚ) ⟨2, 0⟩
        ((⟨0, 0⟩ : Vec2 ℚ).AddScaledVec (1 / 2) ((⟨2, 0⟩ : Vec2 ℚ).Sub ⟨0, 0⟩)) = 0 ∧
      SqDistPointSegment3 (⟨0, 0, 0⟩ : Vec3 ℚ) ⟨0, 2, 0⟩
        ((⟨0, 0, 0⟩ : Vec3 ℚ).AddScaledVec (1 / 2) ((⟨0, 2, 0⟩ : Vec3 ℚ).Sub ⟨0, 0, 0⟩)) = 0 :=
  ⟨by norm_num, by norm_num,
    SqDistPointSegment_on_segment ⟨0, 0⟩ ⟨2, 0⟩ ⟨0, 0, 0⟩ ⟨0, 2, 0⟩ (1 / 2) (by norm_num)
      (by norm_num)⟩

/-- The clamped parameter minimises the quadratic `x ↦ D - 2*x*e + x^2*L` on `[0,1]`:
the scalar core of the closest-point-on-segment query. -/
theorem clamped_param_optimal (e L x : K) (hL : 0 ≤ L) (hx0 : 0 ≤ x) (hx1 : x ≤ 1) :
    (e ≤ 0 → 0 ≤ x * x * L - 2 * x * e) ∧
      (L ≤ e → L - 2 * e ≤ x * x * L - 2 * x * e) ∧
      (0 < e → e < L → e / L * (e / L) * L - 2 * (e / L) * e ≤ x * x * L - 2 * x * e) := by
  refine ⟨fun h => ?_, fun h => ?_, fun h0 h1 => ?_⟩
  · nlinarith [mul_nonneg hx0 (neg_nonneg.mpr h), mul_nonneg (mul_nonneg hx0 hx0) hL]
  · have h1 : 0 ≤ (1 - x) * (e - L) := mul_nonneg (by linarith) (by linarith)
    have h2 : 0 ≤ (1 - x) * (1 - x) * L := mul_nonneg (mul_self_nonneg _) hL
    nlinarith
  · have hLpos : 0 < L := lt_trans h0 h1
    have ht : e / L * L = e := div_mul_cancel₀ e (ne_of_gt hLpos)
    have h2 : 0 ≤ (x - e / L) * (x - e / L) * L := mul_nonneg (mul_self_nonneg _) hL
    have h3 : e / L * (e / L) * L = e / L * e := by rw [mul_assoc, ht]
    have h4 : (x - e / L) * (x - e / L) * L
        = x * x * L - 2 * x * e + e / L * e := by
      have : (x - e / L) * (x - e / L) * L
          = x * x * L - 2 * x * (e / L * L) + e / L * (e / L * L) := by ring
      rw [this, ht]
    rw [h3]
    linarith

/-- C10: `ClosestPointOnLine3` and `ClosestPointOnLine2` return `(t, point)` with
`0 ≤ t ≤ 1`, `point = a + t*(b-a)`, and `point` at least as close to `c` as every
point `a + x*(b-a)`, `0 ≤ x ≤ 1`, of the segment. -/
theorem ClosestPointOnLine_closest :
    (∀ a b c : Vec3 K,
      0 ≤ (ClosestPointOnLine3 a b c).1 ∧ (ClosestPointOnLine3 a b c).1 ≤ 1 ∧
      (ClosestPointOnLine3 a b c).2 = a.AddScaledVec (ClosestPointOnLine3 a b c).1 (b.Sub a) ∧
      ∀ x : K, 0 ≤ x → x ≤ 1 →
        (c.Sub (ClosestPointOnLine3 a b c).2).Len2
          ≤ (c.Sub (a.AddScaledVec x (b.Sub a))).Len2) ∧
    (∀ a b c : Vec2 K,
      0 ≤ (ClosestPointOnLine2 a b c).1 ∧ (ClosestPointOnLine2 a b c).1 ≤ 1 ∧
      (ClosestPointOnLine2 a b c).2 = a.AddScaledVec (ClosestPointOnLine2 a b c).1 (b.Sub a) ∧
      ∀ x : K, 0 ≤ x → x ≤ 1 →
        (c.Sub (ClosestPointOnLine2 a b c).2).Len2
          ≤ (c.Sub (a.AddScaledVec x (b.Sub a))).Len2) := by
  constructor
  · intro a b c
    have hL : 0 ≤ (b.Sub a).Dot (b.Sub a) := by
      simp only [Vec3.Dot, Vec3.Sub]
      nlinarith [mul_self_nonneg (b.x - a.x), mul_self_nonneg (b.y - a.y),
        mul_self_nonneg (b.z - a.z)]
    have hD : ∀ x : K, (c.Sub (a.AddScaledVec x (b.Sub a))).Len2
        = (c.Sub a).Len2 + (x * x * (b.Sub a).Dot (b.Sub a) - 2 * x * (c.Sub a).Dot (b.Sub a)) := by
      intro x
      simp only [Vec3.Len2, Vec3.Sub, Vec3.Dot, Vec3.AddScaledVec]; ring
    unfold ClosestPointOnLine3
    simp only []
    split_ifs with h1 h2
    · refine ⟨le_refl 0, zero_le_one, ?_, fun x hx0 hx1 => ?_⟩
      · ext <;> simp [Vec3.AddScaledVec]
      · rw [hD]
        have := (clamped_param_optimal _ _ x hL hx0 hx1).1 h1
        simp only [Vec3.Len2, Vec3.Sub, Vec3.Dot] at this ⊢
        linarith
    · refine ⟨zero_le_one, le_refl 1, ?_, fun x hx0 hx1 => ?_⟩
      · ext <;> simp [Vec3.AddScaledVec, Vec3.Sub]
      · rw [hD]
        have := (clamped_param_optimal _ _ x hL hx0 hx1).2.1 h2
        simp only [Vec3.Len2, Vec3.Sub, Vec3.Dot] at this ⊢
        linarith
    · have h1 := not_le.mp h1
      have h2 := not_le.mp h2
      refine ⟨div_nonneg (le_of_lt h1) hL, ?_, rfl, fun x hx0 hx1 => ?_⟩
      · exact (div_le_one (lt_trans h1 h2)).mpr (le_of_lt h2)
      · rw [hD, hD]
        have := (clamped_param_optimal _ _ x hL hx0 hx1).2.2 h1 h2
        linarith
  · intro a b c
    have hL : 0 ≤ (b.Sub a).Dot (b.Sub a) := by
      simp only [Vec2.Dot, Vec2.Sub]
      nlinarith [mul_self_nonneg (b.x - a.x), mul_self_nonneg (b.y - a.y)]
    have hD : ∀ x : K, (c.Sub (a.AddScaledVec x (b.Sub a))).Len2
        = (c.Sub a).Len2 + (x * x * (b.Sub a).Dot (b.Sub a) - 2 * x * (c.Sub a).Dot (b.Sub a)) := by
      intro x
      simp only [Vec2.Len2, Vec2.Sub, Vec2.Dot, Vec2.AddScaledVec]; ring
    unfold ClosestPointOnLine2
    simp only []
    split_ifs with h1 h2
    · refine ⟨le_refl 0, zero_le_one, ?_, fun x hx0 hx1 => ?_⟩
      · ext <;> simp [Vec2.AddScaledVec]
      · rw [hD]
        have := (clamped_param_optimal _ _ x hL hx0 hx1).1 h1
        simp only [Vec2.Len2, Vec2.Sub, Vec2.Dot] at this ⊢
        linarith
    · refine ⟨zero_le_one, le_refl 1, ?_, fun x hx0 hx1 => ?_⟩
      · ext <;> simp [Vec2.AddScaledVec, Vec2.Sub]
      · rw [hD]
        have := (clamped_param_optimal _ _ x hL hx0 hx1).2.1 h2
        simp only [Vec2.Len2, Vec2.Sub, Vec2.Dot] at this ⊢
        linarith
    · have h1 := not_le.mp h1
      have h2 := not_le.mp h2
      refine ⟨div_nonneg (le_of_lt h1) hL, ?_, rfl, fun x hx0 hx1 => ?_⟩
      · exact (div_le_one (lt_trans h1 h2)).mpr (le_of_lt h2)
      · rw [hD, hD]
        have := (clamped_param_optimal _ _ x hL hx0 hx1).2.2 h1 h2
        linarith

/-! ## Segment–segment query -/

/-- C5: `ClosestPointSegmentSegment` returns parameters `s`, `t` in `[0,1]` and
points `c1`, `c2` on their respective segments. -/
theorem ClosestPointSegmentSegment_on_segments (p1 q1 p2 q2 : Vec3 K) :
    0 ≤ (ClosestPointSegmentSegment p1 q1 p2 q2).s ∧
    (ClosestPointSegmentSegment p1 q1 p2 q2).s ≤ 1 ∧
    0 ≤ (ClosestPointSegmentSegment p1 q1 p2 q2).t ∧
    (ClosestPointSegmentSegment p1 q1 p2 q2).t ≤ 1 ∧
    ∃ x y : K, 0 ≤ x ∧ x ≤ 1 ∧ 0 ≤ y ∧ y ≤ 1 ∧
      (ClosestPointSegmentSegment p1 q1 p2 q2).c1 = p1.AddScaledVec x (q1.Sub p1) ∧
      (ClosestPointSegmentSegment p1 q1 p2 q2).c2 = p2.AddScaledVec y (q2.Sub p2) := by
  have h0 : ∀ v w : Vec3 K, v = v.AddScaledVec 0 w := by
    intro v w
    ext <;> simp [Vec3.AddScaledVec]
  unfold ClosestPointSegmentSegment
  simp only []
  split_ifs
  · exact ⟨le_refl 0, zero_le_one, le_refl 0, zero_le_one, 0, 0, le_refl 0, zero_le_one,
      le_refl 0, zero_le_one, h0 _ _, h0 _ _⟩
  all_goals
    refine ⟨?_, ?_, ?_, ?_, _, _, ?_, ?_, ?_, ?_, rfl, rfl⟩ <;>
    first
      | exact math.Clamp_zero_one_nonneg _
      | exact math.Clamp_zero_one_le_one _
      | exact le_refl _
      | exact zero_le_one

/-- C6: a segment against itself, `ClosestPointSegmentSegment(p, q, p, q)`, has
squared distance `u = 0` (zero length included). -/
theorem ClosestPointSegmentSegment_self (p q : Vec3 K) :
    (ClosestPointSegmentSegment p q p q).u = 0 := by
  unfold ClosestPointSegmentSegment
  simp only []
  split_ifs <;> simp [Vec3.Sub, Vec3.Len2]

/-- C3 (failing input): on the crossing segments (0,0,0)-(1,0,0) and
(0,1,0)-(0,-2,0), which meet at the origin (`x = 0`, `y = 1/3`), the code
returns `u = 1`, which is not a lower bound of the squared distances. -/
theorem ClosestPointSegmentSegment_not_minimal :
    (ClosestPointSegmentSegment (⟨0, 0, 0⟩ : Vec3 ℚ) ⟨1, 0, 0⟩ ⟨0, 1, 0⟩ ⟨0, -2, 0⟩).u = 1 ∧
    (((⟨0, 0, 0⟩ : Vec3 ℚ).AddScaledVec 0 ((⟨1, 0, 0⟩ : Vec3 ℚ).Sub ⟨0, 0, 0⟩)).Sub
      ((⟨0, 1, 0⟩ : Vec3 ℚ).AddScaledVec (1 / 3) ((⟨0, -2, 0⟩ : Vec3 ℚ).Sub ⟨0, 1, 0⟩))).Len2
        = 0 := by
  constructor <;>
    norm_num [ClosestPointSegmentSegment, math.Clamp, Vec3.Sub, Vec3.Dot, Vec3.Len2,
      Vec3.AddScaledVec]

/-- C4 (failing input): on the segments (0,0,0)-(1,0,0) and (0,1,0)-(0,-3,0)
the code returns `s = 0`, `t = 1`, `c2 = (0,1,0)` and `u = 1`, whereas
`S2(t) = p2 + t*(q2-p2) = (0,-3,0)`, at squared distance 9 from `S1(s)`. -/
theorem ClosestPointSegmentSegment_c2_not_S2_t :
    ClosestPointSegmentSegment (⟨0, 0, 0⟩ : Vec3 ℚ) ⟨1, 0, 0⟩ ⟨0, 1, 0⟩ ⟨0, -3, 0⟩
      = ⟨0, 1, 1, ⟨0, 0, 0⟩, ⟨0, 1, 0⟩⟩ ∧
    (⟨0, 1, 0⟩ : Vec3 ℚ).AddScaledVec 1 ((⟨0, -3, 0⟩ : Vec3 ℚ).Sub ⟨0, 1, 0⟩) = ⟨0, -3, 0⟩ ∧
    (((⟨0, 0, 0⟩ : Vec3 ℚ).AddScaledVec 0 ((⟨1, 0, 0⟩ : Vec3 ℚ).Sub ⟨0, 0, 0⟩)).Sub
      ((⟨0, 1, 0⟩ : Vec3 ℚ).AddScaledVec 1 ((⟨0, -3, 0⟩ : Vec3 ℚ).Sub ⟨0, 1, 0⟩))).Len2
        = 9 := by
  refine ⟨?_, ?_, ?_⟩ <;>
    norm_num [ClosestPointSegmentSegment, math.Clamp, Vec3.Sub, Vec3.Dot, Vec3.Len2,
      Vec3.AddScaledVec]

/-! ## Point–triangle query -/

/-- C1 (failing input): for the triangle a = (0,0,0), b = (1,0,0), c = (1,1,0)
and the query point `p = b`, the code returns (1, 1/2, 0), not `b`. -/
theorem ClosestPointInTriangle_vertex_b :
    ClosestPointInTriangle (⟨1, 0, 0⟩ : Vec3 ℚ) ⟨0, 0, 0⟩ ⟨1, 0, 0⟩ ⟨1, 1, 0⟩
      = ⟨1, 1 / 2, 0⟩ := by
  norm_num [ClosestPointInTriangle, Vec3.Sub, Vec3.Dot, Vec3.AddScaledVec]

/-- C2 (failing input): for the triangle a = (0,0,0), b = (1,0,0), c = (1,1,0)
and `p = (1,0,1)`, the code returns q = (1, 1/2, 0) at squared distance 5/4
from `p`, although the vertex `b` of the triangle is at squared distance 1. -/
theorem ClosestPointInTriangle_not_closest :
    ClosestPointInTriangle (⟨1, 0, 1⟩ : Vec3 ℚ) ⟨0, 0, 0⟩ ⟨1, 0, 0⟩ ⟨1, 1, 0⟩
      = ⟨1, 1 / 2, 0⟩ ∧
    ((⟨1, 0, 1⟩ : Vec3 ℚ).Sub ⟨1, 1 / 2, 0⟩).Len2 = 5 / 4 ∧
    ((⟨1, 0, 1⟩ : Vec3 ℚ).Sub ⟨1, 0, 0⟩).Len2 = 1 := by
  refine ⟨?_, ?_, ?_⟩ <;>
    norm_num [ClosestPointInTriangle, Vec3.Sub, Vec3.Dot, Vec3.Len2, Vec3.AddScaledVec]

theorem gram_sum_pos (A B C : K) (hA : 0 < A) (hC : 0 < C) (hdet : B * B < A * C) :
    0 < A - B + C := by
  by_contra h
  have h1 : A + C ≤ B := by linarith [not_lt.mp h]
  have h2 : (A + C) * (A + C) ≤ B * B := by nlinarith
  nlinarith [mul_self_nonneg (A - C)]

theorem face_region_weights (A B C d1 d2 : K) (hA : 0 < A) (hC : 0 < C)
    (hdet : B * B < A * C)
    (h1 : ¬(d1 ≤ 0 ∧ d2 ≤ 0))
    (h2 : ¬(d1 - A ≥ 0 ∧ d2 ≤ d1 - A))
    (h3 : ¬(d1 * d2 - (d1 - A) * d2 ≤ 0 ∧ d1 ≥ 0 ∧ d1 - A ≤ 0))
    (h4 : ¬(d2 - C ≥ 0 ∧ d1 - B ≤ d2 - C))
    (h5 : ¬((d1 - B) * d2 - d1 * (d2 - C) ≤ 0 ∧ d2 ≥ 0 ∧ d2 - C ≤ 0))
    (h6 : ¬((d1 - A) * (d2 - C) - (d1 - B) * d2 ≤ 0 ∧ d2 - (d1 - A) ≥ 0 ∧
      (d1 - B) - (d2 - C) ≥ 0)) :
    0 ≤ (d1 - A) * (d2 - C) - (d1 - B) * d2 ∧ 0 ≤ (d1 - B) * d2 - d1 * (d2 - C) ∧
      0 ≤ d1 * d2 - (d1 - A) * d2 ∧
      (d1 - A) * (d2 - C) - (d1 - B) * d2 + ((d1 - B) * d2 - d1 * (d2 - C)) +
        (d1 * d2 - (d1 - A) * d2) = A * C := by
  have hS := gram_sum_pos A B C hA hC hdet
  have hd2 : 0 ≤ d2 := by
    by_contra hneg
    have hneg := not_le.mp hneg
    have hd1 : 0 < d1 := by
      by_contra h
      exact h1 ⟨not_lt.mp h, le_of_lt hneg⟩
    have hvc : d1 * d2 - (d1 - A) * d2 ≤ 0 := by nlinarith
    have hd3 : 0 < d1 - A := by
      by_contra h
      exact h3 ⟨hvc, le_of_lt hd1, not_lt.mp h⟩
    exact h2 ⟨le_of_lt hd3, by linarith⟩
  have hvb : 0 ≤ (d1 - B) * d2 - d1 * (d2 - C) := by
    by_contra hneg
    have hneg := not_le.mp hneg
    have hd6 : 0 < d2 - C := by
      by_contra h
      exact h5 ⟨le_of_lt hneg, hd2, not_lt.mp h⟩
    have hd5 : d2 - C < d1 - B := by
      by_contra h
      exact h4 ⟨le_of_lt hd6, not_lt.mp h⟩
    have hn2 : ¬(d1 - A ≥ 0 ∧ d2 ≤ d1 - A) := h2
    have hva : 0 < (d1 - A) * (d2 - C) - (d1 - B) * d2 ∨ d2 - (d1 - A) < 0 := by
      by_contra h
      push_neg at h
      exact h6 ⟨h.1, h.2, by linarith⟩
    rcases hva with hva | hlt
    · have e1 : 0 < C * ((d1 - B) - (d2 - C)) := mul_pos hC (by linarith)
      have e2 : 0 < (A - B + C) * (d2 - C) := mul_pos hS hd6
      nlinarith
    · exact h2 ⟨by linarith, by linarith⟩
  have hva : 0 ≤ (d1 - A) * (d2 - C) - (d1 - B) * d2 := by
    by_contra hneg
    have hneg := not_le.mp hneg
    have hor : d2 - (d1 - A) < 0 ∨ (d1 - B) - (d2 - C) < 0 := by
      by_contra h
      push_neg at h
      exact h6 ⟨le_of_lt hneg, h.1, h.2⟩
    rcases hor with hlt | hlt
    · exact h2 ⟨by linarith, by linarith⟩
    · have hd6 : d2 - C < 0 := by
        by_contra h
        exact h4 ⟨not_lt.mp h, by linarith⟩
      have e1 : 0 < C * ((d2 - C) - (d1 - B)) := mul_pos hC (by linarith)
      have e2 : 0 < (A - B + C) * (C - d2) := mul_pos hS (by linarith)
      nlinarith
  refine ⟨hva, hvb, ?_, by ring⟩
  have : d1 * d2 - (d1 - A) * d2 = A * d2 := by ring
  rw [this]
  exact mul_nonneg (le_of_lt hA) hd2

theorem Len2_pos_of_ne_zero (v : Vec3 K) (h : v ≠ ⟨0, 0, 0⟩) : 0 < v.Len2 := by
  by_contra hn
  have hle : v.Len2 ≤ 0 := not_lt.mp hn
  simp only [Vec3.Len2] at hle
  have hx : v.x * v.x = 0 := by
    nlinarith [mul_self_nonneg v.x, mul_self_nonneg v.y, mul_self_nonneg v.z]
  have hy : v.y * v.y = 0 := by
    nlinarith [mul_self_nonneg v.x, mul_self_nonneg v.y, mul_self_nonneg v.z]
  have hz : v.z * v.z = 0 := by
    nlinarith [mul_self_nonneg v.x, mul_self_nonneg v.y, mul_self_nonneg v.z]
  apply h
  ext
  · exact mul_self_eq_zero.mp hx
  · exact mul_self_eq_zero.mp hy
  · exact mul_self_eq_zero.mp hz

theorem gram_pos_of_cross_ne_zero (u v : Vec3 K) (h : u.Cross v ≠ ⟨0, 0, 0⟩) :
    0 < u.Dot u ∧ 0 < v.Dot v ∧ u.Dot v * u.Dot v < u.Dot u * v.Dot v := by
  have hpos := Len2_pos_of_ne_zero _ h
  have hlag : u.Dot u * v.Dot v - u.Dot v * u.Dot v = (u.Cross v).Len2 := by
    simp only [Vec3.Dot, Vec3.Cross, Vec3.Len2]; ring
  have hdet : u.Dot v * u.Dot v < u.Dot u * v.Dot v := by linarith
  have hA : 0 ≤ u.Dot u := by
    simp only [Vec3.Dot]
    nlinarith [mul_self_nonneg u.x, mul_self_nonneg u.y, mul_self_nonneg u.z]
  have hC : 0 ≤ v.Dot v := by
    simp only [Vec3.Dot]
    nlinarith [mul_self_nonneg v.x, mul_self_nonneg v.y, mul_self_nonneg v.z]
  have hprod : 0 < u.Dot u * v.Dot v := lt_of_le_of_lt (mul_self_nonneg _) hdet
  refine ⟨?_, ?_, hdet⟩
  · rcases eq_or_lt_of_le hA with h0 | h0
    · rw [← h0, zero_mul] at hprod
      exact absurd hprod (lt_irrefl 0)
    · exact h0
  · rcases eq_or_lt_of_le hC with h0 | h0
    · rw [← h0, mul_zero] at hprod
      exact absurd hprod (lt_irrefl 0)
    · exact h0

/-- For a non-degenerate triangle the result of `ClosestPointInTriangle` is a
point of the triangle. -/
theorem ClosestPointInTriangle_mem (p a b c : Vec3 K)
    (h : (b.Sub a).Cross (c.Sub a) ≠ ⟨0, 0, 0⟩) :
    ∃ v w : K, 0 ≤ v ∧ 0 ≤ w ∧ v + w ≤ 1 ∧
      ClosestPointInTriangle p a b c
        = (a.AddScaledVec v (b.Sub a)).AddScaledVec w (c.Sub a) := by
  obtain ⟨hA, hC, hdet⟩ := gram_pos_of_cross_ne_zero _ _ h
  have hS := gram_sum_pos _ _ _ hA hC hdet
  have hd3 : (b.Sub a).Dot (p.Sub b) = (b.Sub a).Dot (p.Sub a) - (b.Sub a).Dot (b.Sub a) := by
    simp only [Vec3.Dot, Vec3.Sub]; ring
  have hd5 : (b.Sub a).Dot (p.Sub c) = (b.Sub a).Dot (p.Sub a) - (b.Sub a).Dot (c.Sub a) := by
    simp only [Vec3.Dot, Vec3.Sub]; ring
  have hd6 : (c.Sub a).Dot (p.Sub c) = (c.Sub a).Dot (p.Sub a) - (c.Sub a).Dot (c.Sub a) := by
    simp only [Vec3.Dot, Vec3.Sub]; ring
  unfold ClosestPointInTriangle
  simp only [hd3, hd5, hd6]
  generalize (b.Sub a).Dot (p.Sub a) = d1 at *
  generalize (c.Sub a).Dot (p.Sub a) = d2 at *
  generalize (b.Sub a).Dot (b.Sub a) = A at *
  generalize (b.Sub a).Dot (c.Sub a) = B at *
  generalize (c.Sub a).Dot (c.Sub a) = C at *
  split_ifs with h1 h2 h3 h4 h5 h6
  · refine ⟨0, 0, le_refl 0, le_refl 0, by norm_num, ?_⟩
    ext <;> simp [Vec3.AddScaledVec]
  · refine ⟨1, 0, zero_le_one, le_refl 0, by norm_num, ?_⟩
    ext <;> simp [Vec3.AddScaledVec, Vec3.Sub]
  · have hden : d1 - (d1 - A) = A := by ring
    rw [hden]
    refine ⟨d1 / A, 0, div_nonneg h3.2.1 (le_of_lt hA), le_refl 0, ?_, ?_⟩
    · rw [add_zero]
      exact (div_le_one hA).mpr (by linarith [h3.2.2])
    · ext <;> simp [Vec3.AddScaledVec]
  · refine ⟨0, 1, le_refl 0, zero_le_one, by norm_num, ?_⟩
    ext <;> simp [Vec3.AddScaledVec, Vec3.Sub]
  · have hden : d2 - (d2 - C) = C := by ring
    rw [hden]
    refine ⟨0, d2 / C, le_refl 0, div_nonneg h5.2.1 (le_of_lt hC), ?_, ?_⟩
    · rw [zero_add]
      exact (div_le_one hC).mpr (by linarith [h5.2.2])
    · ext <;> simp [Vec3.AddScaledVec]
  · have hden : d2 - (d1 - A) + (d1 - B - (d2 - C)) = A - B + C := by ring
    rw [hden]
    have hr0 : 0 ≤ (d2 - (d1 - A)) / (A - B + C) := div_nonneg h6.2.1 (le_of_lt hS)
    have hr1 : (d2 - (d1 - A)) / (A - B + C) ≤ 1 :=
      (div_le_one hS).mpr (by linarith [h6.2.2])
    refine ⟨1 - (d2 - (d1 - A)) / (A - B + C), (d2 - (d1 - A)) / (A - B + C),
      by linarith, hr0, by linarith, ?_⟩
    ext <;> simp only [Vec3.AddScaledVec, Vec3.Sub] <;> ring
  · obtain ⟨hva, hvb, hvc, hsum⟩ := face_region_weights A B C d1 d2 hA hC hdet h1 h2 h3 h4 h5 h6
    have hAC : 0 < A * C := mul_pos hA hC
    rw [hsum]
    refine ⟨_, _, mul_nonneg hvb (by positivity), mul_nonneg hvc (by positivity), ?_, rfl⟩
    rw [← add_mul, mul_one_div, div_le_one hAC]
    linarith

/-! ## Point–tetrahedron query -/

/-- A point `x + wy*(y-x) + wz*(z-x) + wo*(o-x)` with `wo ≥ 0` is not outside the
plane of the face `(x, y, z)` with respect to the opposite vertex `o`. -/
theorem PointOutsideOfPlane_of_weights (p x y z o : Vec3 K) (wy wz wo : K) (hwo : 0 ≤ wo)
    (hx : p.x = x.x + wy * (y.x - x.x) + wz * (z.x - x.x) + wo * (o.x - x.x))
    (hy : p.y = x.y + wy * (y.y - x.y) + wz * (z.y - x.y) + wo * (o.y - x.y))
    (hz : p.z = x.z + wy * (y.z - x.z) + wz * (z.z - x.z) + wo * (o.z - x.z)) :
    PointOutsideOfPlane p x y z o = false := by
  simp only [PointOutsideOfPlane, Vec3.Sub, Vec3.Dot, Vec3.Cross, decide_eq_false_iff_not,
    not_lt, hx, hy, hz]
  have key : ∀ D : K, 0 ≤ wo * D * D := fun D => by
    rw [mul_assoc]; exact mul_nonneg hwo (mul_self_nonneg D)
  have := key ((o.x - x.x) * ((y.y - x.y) * (z.z - x.z) - (y.z - x.z) * (z.y - x.y)) +
    (o.y - x.y) * ((y.z - x.z) * (z.x - x.x) - (y.x - x.x) * (z.z - x.z)) +
    (o.z - x.z) * ((y.x - x.x) * (z.y - x.y) - (y.y - x.y) * (z.x - x.x)))
  calc (0 : K) ≤ _ := this
    _ = _ := by ring

/-- A point that is outside none of the four face planes is returned unchanged. -/
theorem ClosestPointInTetrahedron_of_not_outside (p a b c d : Vec3 K)
    (h1 : PointOutsideOfPlane p a b c d = false) (h2 : PointOutsideOfPlane p a c d b = false)
    (h3 : PointOutsideOfPlane p a d b c = false) (h4 : PointOutsideOfPlane p b d c a = false) :
    ClosestPointInTetrahedron p a b c d = p := by
  simp [ClosestPointInTetrahedron, tetraFaceStep, h1, h2, h3, h4]

/-- A weighted combination of the vertices with non-negative weights summing to
one is outside none of the four face planes. -/
theorem not_outside_of_weightedSum4 (a b c d : Vec3 K) (wa wb wc wd : K)
    (ha : 0 ≤ wa) (hb : 0 ≤ wb) (hc : 0 ≤ wc) (hd : 0 ≤ wd) (hsum : wa + wb + wc + wd = 1) :
    PointOutsideOfPlane (weightedSum4 wa wb wc wd a b c d) a b c d = false ∧
    PointOutsideOfPlane (weightedSum4 wa wb wc wd a b c d) a c d b = false ∧
    PointOutsideOfPlane (weightedSum4 wa wb wc wd a b c d) a d b c = false ∧
    PointOutsideOfPlane (weightedSum4 wa wb wc wd a b c d) b d c a = false := by
  have hwa : wa = 1 - wb - wc - wd := by linarith
  subst hwa
  refine ⟨PointOutsideOfPlane_of_weights _ a b c d wb wc wd hd ?_ ?_ ?_,
    PointOutsideOfPlane_of_weights _ a c d b wc wd wb hb ?_ ?_ ?_,
    PointOutsideOfPlane_of_weights _ a d b c wd wb wc hc ?_ ?_ ?_,
    PointOutsideOfPlane_of_weights _ b d c a wd wc (1 - wb - wc - wd) ha ?_ ?_ ?_⟩ <;>
  · simp only [weightedSum4]
    ring

/-- C7: a point `p` that is outside none of the four face planes of the
tetrahedron is returned unchanged; in particular every point
`wa*a + wb*b + wc*c + wd*d` with non-negative weights summing to one (every
strictly interior point among them), and the centroid `(a+b+c+d)/4`. -/
theorem ClosestPointInTetrahedron_inside :
    (∀ p a b c d : Vec3 K,
      PointOutsideOfPlane p a b c d = false → PointOutsideOfPlane p a c d b = false →
      PointOutsideOfPlane p a d b c = false → PointOutsideOfPlane p b d c a = false →
      ClosestPointInTetrahedron p a b c d = p) ∧
    (∀ (a b c d : Vec3 K) (wa wb wc wd : K),
      0 ≤ wa → 0 ≤ wb → 0 ≤ wc → 0 ≤ wd → wa + wb + wc + wd = 1 →
      ClosestPointInTetrahedron (weightedSum4 wa wb wc wd a b c d) a b c d
        = weightedSum4 wa wb wc wd a b c d) ∧
    (∀ a b c d : Vec3 K,
      ClosestPointInTetrahedron
          ⟨(a.x + b.x + c.x + d.x) / 4, (a.y + b.y + c.y + d.y) / 4, (a.z + b.z + c.z + d.z) / 4⟩
          a b c d
        = ⟨(a.x + b.x + c.x + d.x) / 4, (a.y + b.y + c.y + d.y) / 4,
            (a.z + b.z + c.z + d.z) / 4⟩) := by
  refine ⟨ClosestPointInTetrahedron_of_not_outside, ?_, ?_⟩
  · intro a b c d wa wb wc wd ha hb hc hd hsum
    obtain ⟨h1, h2, h3, h4⟩ := not_outside_of_weightedSum4 a b c d wa wb wc wd ha hb hc hd hsum
    exact ClosestPointInTetrahedron_of_not_outside _ a b c d h1 h2 h3 h4
  · intro a b c d
    have hq : (⟨(a.x + b.x + c.x + d.x) / 4, (a.y + b.y + c.y + d.y) / 4,
        (a.z + b.z + c.z + d.z) / 4⟩ : Vec3 K)
        = weightedSum4 (1 / 4) (1 / 4) (1 / 4) (1 / 4) a b c d := by
      ext <;> simp only [weightedSum4] <;> ring
    rw [hq]
    obtain ⟨h1, h2, h3, h4⟩ := not_outside_of_weightedSum4 a b c d (1 / 4) (1 / 4) (1 / 4)
      (1 / 4) (by norm_num) (by norm_num) (by norm_num) (by norm_num) (by norm_num)
    exact ClosestPointInTetrahedron_of_not_outside _ a b c d h1 h2 h3 h4

/-- Witness for C7: the centroid (1/4, 1/4, 1/4) of the unit tetrahedron is
outside none of its face planes and is returned unchanged. -/
theorem ClosestPointInTetrahedron_inside_witness :
    PointOutsideOfPlane (⟨1 / 4, 1 / 4, 1 / 4⟩ : Vec3 ℚ) ⟨0, 0, 0⟩ ⟨1, 0, 0⟩ ⟨0, 1, 0⟩ ⟨0, 0, 1⟩
      = false ∧
    ClosestPointInTetrahedron (⟨1 / 4, 1 / 4, 1 / 4⟩ : Vec3 ℚ) ⟨0, 0, 0⟩ ⟨1, 0, 0⟩ ⟨0, 1, 0⟩
      ⟨0, 0, 1⟩ = ⟨1 / 4, 1 / 4, 1 / 4⟩ :=
  ⟨by norm_num [PointOutsideOfPlane, Vec3.Sub, Vec3.Dot, Vec3.Cross],
    ClosestPointInTetrahedron_inside.1 _ _ _ _ _
      (by norm_num [PointOutsideOfPlane, Vec3.Sub, Vec3.Dot, Vec3.Cross])
      (by norm_num [PointOutsideOfPlane, Vec3.Sub, Vec3.Dot, Vec3.Cross])
      (by norm_num [PointOutsideOfPlane, Vec3.Sub, Vec3.Dot, Vec3.Cross])
      (by norm_num [PointOutsideOfPlane, Vec3.Sub, Vec3.Dot, Vec3.Cross])⟩

theorem PointOutsideOfPlane_eq_false_iff (p a b c d : Vec3 K) :
    PointOutsideOfPlane p a b c d = false ↔
      0 ≤ (p.Sub a).Dot ((b.Sub a).Cross (c.Sub a)) *
        (d.Sub a).Dot ((b.Sub a).Cross (c.Sub a)) := by
  simp [PointOutsideOfPlane]

/-- Points of the four faces, in the vertex orders used by the code, belong to
the tetrahedron. -/
theorem face_points_in_tetrahedron (a b c d : Vec3 K) (v w : K) (hv : 0 ≤ v) (hw : 0 ≤ w)
    (hvw : v + w ≤ 1) :
    InTetrahedron ((a.AddScaledVec v (b.Sub a)).AddScaledVec w (c.Sub a)) a b c d ∧
    InTetrahedron ((a.AddScaledVec v (c.Sub a)).AddScaledVec w (d.Sub a)) a b c d ∧
    InTetrahedron ((a.AddScaledVec v (d.Sub a)).AddScaledVec w (b.Sub a)) a b c d ∧
    InTetrahedron ((b.AddScaledVec v (d.Sub b)).AddScaledVec w (c.Sub b)) a b c d := by
  have h1 : 0 ≤ 1 - v - w := by linarith
  refine ⟨⟨1 - v - w, v, w, 0, h1, hv, hw, le_refl 0, by ring, ?_⟩,
    ⟨1 - v - w, 0, v, w, h1, le_refl 0, hv, hw, by ring, ?_⟩,
    ⟨1 - v - w, w, 0, v, h1, hw, le_refl 0, hv, by ring, ?_⟩,
    ⟨0, 1 - v - w, w, v, le_refl 0, h1, hw, hv, by ring, ?_⟩⟩ <;>
  · ext <;> simp only [weightedSum4, Vec3.AddScaledVec, Vec3.Sub] <;> ring

/-- For a non-degenerate tetrahedron, a point outside none of the four face
planes is a convex combination of the vertices. -/
theorem in_tetrahedron_of_not_outside (p a b c d : Vec3 K)
    (hD : (d.Sub a).Dot ((b.Sub a).Cross (c.Sub a)) ≠ 0)
    (h1 : PointOutsideOfPlane p a b c d = false) (h2 : PointOutsideOfPlane p a c d b = false)
    (h3 : PointOutsideOfPlane p a d b c = false) (h4 : PointOutsideOfPlane p b d c a = false) :
    InTetrahedron p a b c d := by
  rw [PointOutsideOfPlane_eq_false_iff] at h1 h2 h3 h4
  have e2 : (b.Sub a).Dot ((c.Sub a).Cross (d.Sub a))
      = (d.Sub a).Dot ((b.Sub a).Cross (c.Sub a)) := by
    simp only [Vec3.Dot, Vec3.Cross, Vec3.Sub]; ring
  have e3 : (c.Sub a).Dot ((d.Sub a).Cross (b.Sub a))
      = (d.Sub a).Dot ((b.Sub a).Cross (c.Sub a)) := by
    simp only [Vec3.Dot, Vec3.Cross, Vec3.Sub]; ring
  have e4 : (a.Sub b).Dot ((d.Sub b).Cross (c.Sub b))
      = (d.Sub a).Dot ((b.Sub a).Cross (c.Sub a)) := by
    simp only [Vec3.Dot, Vec3.Cross, Vec3.Sub]; ring
  have hsum : (p.Sub b).Dot ((d.Sub b).Cross (c.Sub b)) +
      (p.Sub a).Dot ((c.Sub a).Cross (d.Sub a)) + (p.Sub a).Dot ((d.Sub a).Cross (b.Sub a)) +
      (p.Sub a).Dot ((b.Sub a).Cross (c.Sub a))
      = (d.Sub a).Dot ((b.Sub a).Cross (c.Sub a)) := by
    simp only [Vec3.Dot, Vec3.Cross, Vec3.Sub]; ring
  have hx : (p.Sub b).Dot ((d.Sub b).Cross (c.Sub b)) * a.x +
      (p.Sub a).Dot ((c.Sub a).Cross (d.Sub a)) * b.x +
      (p.Sub a).Dot ((d.Sub a).Cross (b.Sub a)) * c.x +
      (p.Sub a).Dot ((b.Sub a).Cross (c.Sub a)) * d.x
      = p.x * (d.Sub a).Dot ((b.Sub a).Cross (c.Sub a)) := by
    simp only [Vec3.Dot, Vec3.Cross, Vec3.Sub]; ring
  have hy : (p.Sub b).Dot ((d.Sub b).Cross (c.Sub b)) * a.y +
      (p.Sub a).Dot ((c.Sub a).Cross (d.Sub a)) * b.y +
      (p.Sub a).Dot ((d.Sub a).Cross (b.Sub a)) * c.y +
      (p.Sub a).Dot ((b.Sub a).Cross (c.Sub a)) * d.y
      = p.y * (d.Sub a).Dot ((b.Sub a).Cross (c.Sub a)) := by
    simp only [Vec3.Dot, Vec3.Cross, Vec3.Sub]; ring
  have hz : (p.Sub b).Dot ((d.Sub b).Cross (c.Sub b)) * a.z +
      (p.Sub a).Dot ((c.Sub a).Cross (d.Sub a)) * b.z +
      (p.Sub a).Dot ((d.Sub a).Cross (b.Sub a)) * c.z +
      (p.Sub a).Dot ((b.Sub a).Cross (c.Sub a)) * d.z
      = p.z * (d.Sub a).Dot ((b.Sub a).Cross (c.Sub a)) := by
    simp only [Vec3.Dot, Vec3.Cross, Vec3.Sub]; ring
  rw [e2] at h2
  rw [e3] at h3
  rw [e4] at h4
  generalize (d.Sub a).Dot ((b.Sub a).Cross (c.Sub a)) = D at *
  generalize (p.Sub a).Dot ((b.Sub a).Cross (c.Sub a)) = s1 at *
  generalize (p.Sub a).Dot ((c.Sub a).Cross (d.Sub a)) = s2 at *
  generalize (p.Sub a).Dot ((d.Sub a).Cross (b.Sub a)) = s3 at *
  generalize (p.Sub b).Dot ((d.Sub b).Cross (c.Sub b)) = s4 at *
  have hDD : 0 < D * D := mul_self_pos.mpr hD
  have hw : ∀ s : K, 0 ≤ s * D → 0 ≤ s / D := by
    intro s hs
    have : s / D = s * D / (D * D) := by
      field_simp
      ring
    rw [this]
    exact div_nonneg hs (le_of_lt hDD)
  refine ⟨s4 / D, s2 / D, s3 / D, s1 / D, hw _ h4, hw _ h2, hw _ h3, hw _ h1, ?_, ?_⟩
  · rw [← add_div, ← add_div, ← add_div, hsum, div_self hD]
  · ext
    · simp only [weightedSum4]
      field_simp
      linarith
    · simp only [weightedSum4]
      field_simp
      linarith
    · simp only [weightedSum4]
      field_simp
      linarith

/-- Every face of a non-degenerate tetrahedron is a non-degenerate triangle. -/
theorem faces_nondegenerate (a b c d : Vec3 K)
    (hD : (d.Sub a).Dot ((b.Sub a).Cross (c.Sub a)) ≠ 0) :
    (b.Sub a).Cross (c.Sub a) ≠ ⟨0, 0, 0⟩ ∧ (c.Sub a).Cross (d.Sub a) ≠ ⟨0, 0, 0⟩ ∧
    (d.Sub a).Cross (b.Sub a) ≠ ⟨0, 0, 0⟩ ∧ (d.Sub b).Cross (c.Sub b) ≠ ⟨0, 0, 0⟩ := by
  have e2 : (b.Sub a).Dot ((c.Sub a).Cross (d.Sub a))
      = (d.Sub a).Dot ((b.Sub a).Cross (c.Sub a)) := by
    simp only [Vec3.Dot, Vec3.Cross, Vec3.Sub]; ring
  have e3 : (c.Sub a).Dot ((d.Sub a).Cross (b.Sub a))
      = (d.Sub a).Dot ((b.Sub a).Cross (c.Sub a)) := by
    simp only [Vec3.Dot, Vec3.Cross, Vec3.Sub]; ring
  have e4 : (a.Sub b).Dot ((d.Sub b).Cross (c.Sub b))
      = (d.Sub a).Dot ((b.Sub a).Cross (c.Sub a)) := by
    simp only [Vec3.Dot, Vec3.Cross, Vec3.Sub]; ring
  have hz : ∀ u : Vec3 K, u.Dot ⟨0, 0, 0⟩ = 0 := by
    intro u
    simp [Vec3.Dot]
  refine ⟨fun h => hD ?_, fun h => hD ?_, fun h => hD ?_, fun h => hD ?_⟩
  · rw [h, hz]
  · rw [← e2, h, hz]
  · rw [← e3, h, hz]
  · rw [← e4, h, hz]

theorem tetraFaceStep_snd_le (p x y z o : Vec3 K) (st : Vec3 K × K) :
    (tetraFaceStep p x y z o st).2 ≤ st.2 := by
  unfold tetraFaceStep
  simp only []
  split_ifs with h1 h2
  · exact le_of_lt h2
  · exact le_refl _
  · exact le_refl _

theorem tetraFaceStep_snd_le_sqDist (p x y z o : Vec3 K) (st : Vec3 K × K)
    (h : PointOutsideOfPlane p x y z o = true) :
    (tetraFaceStep p x y z o st).2 ≤ ((ClosestPointInTriangle p x y z).Sub p).Len2 := by
  unfold tetraFaceStep
  rw [if_pos h]
  simp only []
  split_ifs with h2
  · exact le_refl _
  · exact not_lt.mp h2

/-- The state of the face scan either holds a point of the tetrahedron with a
squared distance below `MaxFloat32`, or is still the initial `(p, MaxFloat32)`. -/
theorem tetraFaceStep_invariant (p x y z o a b c d : Vec3 K) (st : Vec3 K × K)
    (hface : InTetrahedron (ClosestPointInTriangle p x y z) a b c d)
    (hst : (InTetrahedron st.1 a b c d ∧ st.2 < math.MaxFloat32) ∨
      st = (p, math.MaxFloat32)) :
    (InTetrahedron (tetraFaceStep p x y z o st).1 a b c d ∧
        (tetraFaceStep p x y z o st).2 < math.MaxFloat32) ∨
      tetraFaceStep p x y z o st = (p, math.MaxFloat32) := by
  have hle : st.2 ≤ math.MaxFloat32 := by
    rcases hst with h | h
    · exact le_of_lt h.2
    · rw [h]
  unfold tetraFaceStep
  simp only []
  split_ifs with h1 h2
  · exact Or.inl ⟨hface, lt_of_lt_of_le h2 hle⟩
  · exact hst
  · exact hst

/-- Below the `MaxFloat32` starting value the face scan works: for a
non-degenerate tetrahedron and a point `p` that is outside no face plane, or is
outside some face plane whose closest-point candidate is at squared distance
less than `MaxFloat32` from `p`, the result of `ClosestPointInTetrahedron` is
`wa*a + wb*b + wc*c + wd*d` for non-negative weights summing to one. -/
theorem ClosestPointInTetrahedron_in_tetrahedron (p a b c d : Vec3 K)
    (hD : (d.Sub a).Dot ((b.Sub a).Cross (c.Sub a)) ≠ 0)
    (h : (PointOutsideOfPlane p a b c d = false ∧ PointOutsideOfPlane p a c d b = false ∧
          PointOutsideOfPlane p a d b c = false ∧ PointOutsideOfPlane p b d c a = false) ∨
        (PointOutsideOfPlane p a b c d = true ∧
          ((ClosestPointInTriangle p a b c).Sub p).Len2 < math.MaxFloat32) ∨
        (PointOutsideOfPlane p a c d b = true ∧
          ((ClosestPointInTriangle p a c d).Sub p).Len2 < math.MaxFloat32) ∨
        (PointOutsideOfPlane p a d b c = true ∧
          ((ClosestPointInTriangle p a d b).Sub p).Len2 < math.MaxFloat32) ∨
        (PointOutsideOfPlane p b d c a = true ∧
          ((ClosestPointInTriangle p b d c).Sub p).Len2 < math.MaxFloat32)) :
    ∃ wa wb wc wd : K, 0 ≤ wa ∧ 0 ≤ wb ∧ 0 ≤ wc ∧ 0 ≤ wd ∧ wa + wb + wc + wd = 1 ∧
      ClosestPointInTetrahedron p a b c d = weightedSum4 wa wb wc wd a b c d := by
  obtain ⟨n1, n2, n3, n4⟩ := faces_nondegenerate a b c d hD
  have f1 : InTetrahedron (ClosestPointInTriangle p a b c) a b c d := by
    obtain ⟨v, w, hv, hw, hvw, e⟩ := ClosestPointInTriangle_mem p a b c n1
    rw [e]
    exact (face_points_in_tetrahedron a b c d v w hv hw hvw).1
  have f2 : InTetrahedron (ClosestPointInTriangle p a c d) a b c d := by
    obtain ⟨v, w, hv, hw, hvw, e⟩ := ClosestPointInTriangle_mem p a c d n2
    rw [e]
    exact (face_points_in_tetrahedron a b c d v w hv hw hvw).2.1
  have f3 : InTetrahedron (ClosestPointInTriangle p a d b) a b c d := by
    obtain ⟨v, w, hv, hw, hvw, e⟩ := ClosestPointInTriangle_mem p a d b n3
    rw [e]
    exact (face_points_in_tetrahedron a b c d v w hv hw hvw).2.2.1
  have f4 : InTetrahedron (ClosestPointInTriangle p b d c) a b c d := by
    obtain ⟨v, w, hv, hw, hvw, e⟩ := ClosestPointInTriangle_mem p b d c n4
    rw [e]
    exact (face_points_in_tetrahedron a b c d v w hv hw hvw).2.2.2
  have i1 := tetraFaceStep_invariant p a b c d a b c d (p, math.MaxFloat32) f1 (Or.inr rfl)
  have i2 := tetraFaceStep_invariant p a c d b a b c d _ f2 i1
  have i3 := tetraFaceStep_invariant p a d b c a b c d _ f3 i2
  have i4 := tetraFaceStep_invariant p b d c a a b c d _ f4 i3
  have m2 := tetraFaceStep_snd_le p a c d b (tetraFaceStep p a b c d (p, math.MaxFloat32))
  have m3 := tetraFaceStep_snd_le p a d b c
    (tetraFaceStep p a c d b (tetraFaceStep p a b c d (p, math.MaxFloat32)))
  have m4 := tetraFaceStep_snd_le p b d c a (tetraFaceStep p a d b c
    (tetraFaceStep p a c d b (tetraFaceStep p a b c d (p, math.MaxFloat32))))
  have hres : ClosestPointInTetrahedron p a b c d = (tetraFaceStep p b d c a (tetraFaceStep p a d b c
      (tetraFaceStep p a c d b (tetraFaceStep p a b c d (p, math.MaxFloat32))))).1 := rfl
  rw [hres]
  rcases i4 with hin | hinit
  · exact hin.1
  · have hmax : (tetraFaceStep p b d c a (tetraFaceStep p a d b c
        (tetraFaceStep p a c d b (tetraFaceStep p a b c d (p, math.MaxFloat32))))).2
        = math.MaxFloat32 := by rw [hinit]
    rw [hinit]
    rcases h with ⟨o1, o2, o3, o4⟩ | ⟨o, hlt⟩ | ⟨o, hlt⟩ | ⟨o, hlt⟩ | ⟨o, hlt⟩
    · exact in_tetrahedron_of_not_outside p a b c d hD o1 o2 o3 o4
    · have := tetraFaceStep_snd_le_sqDist p a b c d (p, math.MaxFloat32) o
      exact absurd hmax (ne_of_lt (by linarith))
    · have := tetraFaceStep_snd_le_sqDist p a c d b
        (tetraFaceStep p a b c d (p, math.MaxFloat32)) o
      exact absurd hmax (ne_of_lt (by linarith))
    · have := tetraFaceStep_snd_le_sqDist p a d b c
        (tetraFaceStep p a c d b (tetraFaceStep p a b c d (p, math.MaxFloat32))) o
      exact absurd hmax (ne_of_lt (by linarith))
    · have := tetraFaceStep_snd_le_sqDist p b d c a (tetraFaceStep p a d b c
        (tetraFaceStep p a c d b (tetraFaceStep p a b c d (p, math.MaxFloat32)))) o
      exact absurd hmax (ne_of_lt (by linarith))

/-- An instance of the face scan below the starting value: the point (0,0,-1)
under the face `abc` of the unit tetrahedron. -/
theorem ClosestPointInTetrahedron_in_tetrahedron_witness :
    ∃ wa wb wc wd : ℚ, 0 ≤ wa ∧ 0 ≤ wb ∧ 0 ≤ wc ∧ 0 ≤ wd ∧ wa + wb + wc + wd = 1 ∧
      ClosestPointInTetrahedron (⟨0, 0, -1⟩ : Vec3 ℚ) ⟨0, 0, 0⟩ ⟨1, 0, 0⟩ ⟨0, 1, 0⟩ ⟨0, 0, 1⟩
        = weightedSum4 wa wb wc wd ⟨0, 0, 0⟩ ⟨1, 0, 0⟩ ⟨0, 1, 0⟩ ⟨0, 0, 1⟩ :=
  ClosestPointInTetrahedron_in_tetrahedron ⟨0, 0, -1⟩ ⟨0, 0, 0⟩ ⟨1, 0, 0⟩ ⟨0, 1, 0⟩ ⟨0, 0, 1⟩
    (by norm_num [Vec3.Sub, Vec3.Dot, Vec3.Cross])
    (Or.inr (Or.inl ⟨by norm_num [PointOutsideOfPlane, Vec3.Sub, Vec3.Dot, Vec3.Cross],
      by norm_num [ClosestPointInTriangle, math.MaxFloat32, Vec3.Sub, Vec3.Dot, Vec3.Len2]⟩))

/-- C8 (failing input): for the unit tetrahedron, which is non-degenerate, and
the far point p = (0, 0, -2^64), the squared distance to the face `abc` is
2^128, not below the starting value `MaxFloat32` of `bestSqDist` (in `float32`
it overflows to +Inf), the candidate is rejected and the code returns `p`,
which is no combination of the vertices with non-negative weights summing to
one: the result is not in or on the tetrahedron. -/
theorem ClosestPointInTetrahedron_far_point_outside :
    ((⟨0, 0, 1⟩ : Vec3 ℚ).Sub ⟨0, 0, 0⟩).Dot
        (((⟨1, 0, 0⟩ : Vec3 ℚ).Sub ⟨0, 0, 0⟩).Cross ((⟨0, 1, 0⟩ : Vec3 ℚ).Sub ⟨0, 0, 0⟩)) ≠ 0 ∧
    ClosestPointInTetrahedron (⟨0, 0, -18446744073709551616⟩ : Vec3 ℚ) ⟨0, 0, 0⟩ ⟨1, 0, 0⟩
        ⟨0, 1, 0⟩ ⟨0, 0, 1⟩ = ⟨0, 0, -18446744073709551616⟩ ∧
    ¬ ∃ wa wb wc wd : ℚ, 0 ≤ wa ∧ 0 ≤ wb ∧ 0 ≤ wc ∧ 0 ≤ wd ∧ wa + wb + wc + wd = 1 ∧
      ClosestPointInTetrahedron (⟨0, 0, -18446744073709551616⟩ : Vec3 ℚ) ⟨0, 0, 0⟩ ⟨1, 0, 0⟩
          ⟨0, 1, 0⟩ ⟨0, 0, 1⟩
        = weightedSum4 wa wb wc wd ⟨0, 0, 0⟩ ⟨1, 0, 0⟩ ⟨0, 1, 0⟩ ⟨0, 0, 1⟩ := by
  have e : ClosestPointInTetrahedron (⟨0, 0, -18446744073709551616⟩ : Vec3 ℚ) ⟨0, 0, 0⟩
      ⟨1, 0, 0⟩ ⟨0, 1, 0⟩ ⟨0, 0, 1⟩ = ⟨0, 0, -18446744073709551616⟩ := by
    norm_num [ClosestPointInTetrahedron, tetraFaceStep, PointOutsideOfPlane,
      ClosestPointInTriangle, math.MaxFloat32, Vec3.Sub, Vec3.Dot, Vec3.Cross, Vec3.Len2]
  refine ⟨by norm_num [Vec3.Sub, Vec3.Dot, Vec3.Cross], e, ?_⟩
  rintro ⟨wa, wb, wc, wd, _, _, _, hd, _, he⟩
  rw [e] at he
  have hz := congrArg Vec3.z he
  simp only [weightedSum4] at hz
  linarith

end geo

namespace geo2

open glm

variable {K : Type} [LinearOrderedField K]

/-! ## Axis-aligned bounding boxes (`geo2/aabb.go`) -/

/-- C20: the AABB overlap test is symmetric, `TestAABBAABB(a,b) = TestAABBAABB(b,a)`. -/
theorem TestAABBAABB_symm (a b : AABB K) : TestAABBAABB a b = TestAABBAABB b a := by
  unfold TestAABBAABB math.Abs
  rw [abs_sub_comm b.Center.x a.Center.x, abs_sub_comm b.Center.y a.Center.y,
    add_comm b.Radius.x a.Radius.x, add_comm b.Radius.y a.Radius.y]

/-- The fold of `UpdateAABB` written out: each centre coordinate is the
translation plus the linear part applied to the base centre, each radius the
absolute linear part applied to the base radii. -/
theorem UpdateAABB_eq (base fill : AABB K) (t : Mat2x3 K) :
    UpdateAABB base fill t =
      ⟨⟨t 0 2 + t 0 0 * base.Center.x + t 0 1 * base.Center.y,
        t 1 2 + t 1 0 * base.Center.x + t 1 1 * base.Center.y⟩,
       ⟨0 + |t 0 0| * base.Radius.x + |t 0 1| * base.Radius.y,
        0 + |t 1 0| * base.Radius.x + |t 1 1| * base.Radius.y⟩⟩ := by
  simp [UpdateAABB, List.finRange, Vec2.getIdx, Vec2.setIdx, math.Abs]

/-- The image of an interval under one row of the affine map stays within the
interval computed by `UpdateAABB`. -/
theorem abs_row_le (m0 m1 x0 x1 c0 c1 r0 r1 tr : K) (h0 : |x0 - c0| ≤ r0)
    (h1 : |x1 - c1| ≤ r1) :
    |tr + (m0 * x0 + m1 * x1) - (tr + m0 * c0 + m1 * c1)| ≤ 0 + |m0| * r0 + |m1| * r1 := by
  have e : tr + (m0 * x0 + m1 * x1) - (tr + m0 * c0 + m1 * c1)
      = m0 * (x0 - c0) + m1 * (x1 - c1) := by ring
  rw [e, zero_add]
  calc |m0 * (x0 - c0) + m1 * (x1 - c1)|
      ≤ |m0 * (x0 - c0)| + |m1 * (x1 - c1)| := abs_add _ _
    _ = |m0| * |x0 - c0| + |m1| * |x1 - c1| := by rw [abs_mul, abs_mul]
    _ ≤ |m0| * r0 + |m1| * r1 :=
        add_le_add (mul_le_mul_of_nonneg_left h0 (abs_nonneg _))
          (mul_le_mul_of_nonneg_left h1 (abs_nonneg _))

/-- C17: `UpdateAABB(base, fill, t)` (with `fill` distinct from `base`) encloses
the transformed base box: every point `x` of the base box is mapped by
`y_i = t[i+4] + sum_j t[j*2+i]*x_j` into the box written to `fill` (a base box
that contains a point has non-negative radii, so that needs no hypothesis). -/
theorem UpdateAABB_encloses (base fill : AABB K) (t : Mat2x3 K) (x : Vec2 K)
    (hx0 : |x.x - base.Center.x| ≤ base.Radius.x)
    (hx1 : |x.y - base.Center.y| ≤ base.Radius.y) :
    |t 0 2 + (t 0 0 * x.x + t 0 1 * x.y) - (UpdateAABB base fill t).Center.x|
        ≤ (UpdateAABB base fill t).Radius.x ∧
    |t 1 2 + (t 1 0 * x.x + t 1 1 * x.y) - (UpdateAABB base fill t).Center.y|
        ≤ (UpdateAABB base fill t).Radius.y := by
  rw [UpdateAABB_eq]
  exact ⟨abs_row_le _ _ _ _ _ _ _ _ _ hx0 hx1, abs_row_le _ _ _ _ _ _ _ _ _ hx0 hx1⟩

/-- Witness for C17: the box with centre (1,2) and radii (1,1), the map with
linear part [[1,-2],[3,4]] and translation (5,6), and the corner point (2,3). -/
theorem UpdateAABB_encloses_witness :
    |(5 : ℚ) + (1 * 2 + -2 * 3)
        - (UpdateAABB (⟨⟨1, 2⟩, ⟨1, 1⟩⟩ : AABB ℚ) ⟨⟨0, 0⟩, ⟨0, 0⟩⟩ !![1, -2, 5; 3, 4, 6]).Center.x|
      ≤ (UpdateAABB (⟨⟨1, 2⟩, ⟨1, 1⟩⟩ : AABB ℚ) ⟨⟨0, 0⟩, ⟨0, 0⟩⟩ !![1, -2, 5; 3, 4, 6]).Radius.x ∧
    |(6 : ℚ) + (3 * 2 + 4 * 3)
        - (UpdateAABB (⟨⟨1, 2⟩, ⟨1, 1⟩⟩ : AABB ℚ) ⟨⟨0, 0⟩, ⟨0, 0⟩⟩ !![1, -2, 5; 3, 4, 6]).Center.y|
      ≤ (UpdateAABB (⟨⟨1, 2⟩, ⟨1, 1⟩⟩ : AABB ℚ) ⟨⟨0, 0⟩, ⟨0, 0⟩⟩ !![1, -2, 5; 3, 4, 6]).Radius.y :=
  UpdateAABB_encloses (⟨⟨1, 2⟩, ⟨1, 1⟩⟩ : AABB ℚ) ⟨⟨0, 0⟩, ⟨0, 0⟩⟩ !![1, -2, 5; 3, 4, 6] ⟨2, 3⟩
    (by norm_num) (by norm_num)

/-- C18: for a box with non-negative radii, `ClosestPointAABBPoint(a,p)` lies in
or on the box and `SqDistAABBPoint(a,p)` is the squared distance from `p` to it. -/
theorem SqDistAABBPoint_eq_closest (a : AABB K) (p : Vec2 K) (hx : 0 ≤ a.Radius.x)
    (hy : 0 ≤ a.Radius.y) :
    a.Center.x - a.Radius.x ≤ (ClosestPointAABBPoint a p).x ∧
    (ClosestPointAABBPoint a p).x ≤ a.Center.x + a.Radius.x ∧
    a.Center.y - a.Radius.y ≤ (ClosestPointAABBPoint a p).y ∧
    (ClosestPointAABBPoint a p).y ≤ a.Center.y + a.Radius.y ∧
    SqDistAABBPoint a p = (p.Sub (ClosestPointAABBPoint a p)).Len2 := by
  unfold SqDistAABBPoint ClosestPointAABBPoint math.Clamp
  simp only [Vec2.Sub, Vec2.Len2]
  split_ifs <;> refine ⟨?_, ?_, ?_, ?_, ?_⟩ <;> linarith

/-- Witness for C18: the box with centre (1,2) and radii (1,1) and the point (5,5). -/
theorem SqDistAABBPoint_eq_closest_witness :
    ClosestPointAABBPoint (⟨⟨1, 2⟩, ⟨1, 1⟩⟩ : AABB ℚ) ⟨5, 5⟩ = ⟨2, 3⟩ ∧
    SqDistAABBPoint (⟨⟨1, 2⟩, ⟨1, 1⟩⟩ : AABB ℚ) ⟨5, 5⟩ = 13 ∧
    SqDistAABBPoint (⟨⟨1, 2⟩, ⟨1, 1⟩⟩ : AABB ℚ) ⟨5, 5⟩
      = ((⟨5, 5⟩ : Vec2 ℚ).Sub (ClosestPointAABBPoint (⟨⟨1, 2⟩, ⟨1, 1⟩⟩ : AABB ℚ) ⟨5, 5⟩)).Len2 :=
  ⟨by norm_num [ClosestPointAABBPoint, math.Clamp],
    by norm_num [SqDistAABBPoint],
    (SqDistAABBPoint_eq_closest (⟨⟨1, 2⟩, ⟨1, 1⟩⟩ : AABB ℚ) ⟨5, 5⟩ (by norm_num)
      (by norm_num)).2.2.2.2⟩

end geo2

namespace geo

open glm

variable {K : Type} [LinearOrderedField K]

/-! ## Jacobi eigenvalue iteration -/

/-- A property preserved by every step of a left fold holds of its result. -/
theorem foldl_preserves {α β : Type} (P : β → Prop) (f : β → α → β)
    (h : ∀ b a, P b → P (f b a)) : ∀ (l : List α) (b : β), P b → P (l.foldl f b) := by
  intro l
  induction l with
  | nil => intro b hb; exact hb
  | cons x xs ih => intro b hb; exact ih _ (h b x hb)

theorem fillIdentity_eq_one (m : Mat3 K) : fillIdentity m = 1 := by
  ext i j
  fin_cases i <;> fin_cases j <;> simp [fillIdentity, List.finRange, Mat3.setAt]

/-- The selected pair `(p, q)` is off the diagonal. -/
theorem largestOffDiagonal_ne (a : Mat3 K) :
    (largestOffDiagonal a).1 ≠ (largestOffDiagonal a).2 := by
  unfold largestOffDiagonal
  apply foldl_preserves (fun pq : Fin 3 × Fin 3 => pq.1 ≠ pq.2)
  · intro pq i hpq
    apply foldl_preserves (fun pq : Fin 3 × Fin 3 => pq.1 ≠ pq.2)
    · intro pq j hpq
      split_ifs with h1 h2
      · exact hpq
      · exact h1
      · exact hpq
    · exact hpq
  · decide

/-- The pair `(c, s)` of `SymSchur2` is a cosine–sine pair, whenever `sqrt`
squares back to its non-negative argument. -/
theorem SymSchur2_sq_add_sq (sqrt : K → K) (hs : ∀ x : K, 0 ≤ x → sqrt x * sqrt x = x)
    (a : Mat3 K) (p q : Fin 3) :
    (SymSchur2 sqrt a p q).1 * (SymSchur2 sqrt a p q).1 +
      (SymSchur2 sqrt a p q).2 * (SymSchur2 sqrt a p q).2 = 1 := by
  unfold SymSchur2
  split_ifs with h
  · simp only []
    generalize (if (a q q - a p p) / (2 * a p q) ≥ 0 then
      1 / ((a q q - a p p) / (2 * a p q) +
        sqrt (1 + (a q q - a p p) / (2 * a p q) * ((a q q - a p p) / (2 * a p q))))
      else -1 / (-((a q q - a p p) / (2 * a p q)) +
        sqrt (1 + (a q q - a p p) / (2 * a p q) * ((a q q - a p p) / (2 * a p q))))) = t
    have hpos : 0 < 1 + t * t := by nlinarith [mul_self_nonneg t]
    have hsq := hs (1 + t * t) (le_of_lt hpos)
    have hne : sqrt (1 + t * t) ≠ 0 := by
      intro h0
      rw [h0, mul_zero] at hsq
      exact absurd hsq.symm (ne_of_gt hpos)
    have e : 1 / sqrt (1 + t * t) * (1 / sqrt (1 + t * t)) +
        t * (1 / sqrt (1 + t * t)) * (t * (1 / sqrt (1 + t * t)))
        = (1 + t * t) / (sqrt (1 + t * t) * sqrt (1 + t * t)) := by
      field_simp
    rw [e, hsq, div_self (ne_of_gt hpos)]
  · norm_num

/-- The rotation built by `Jacobi`, entry by entry. -/
theorem jacobiRotation_apply (J : Mat3 K) (p q : Fin 3) (c s : K) (i j : Fin 3) :
    jacobiRotation J p q c s i j =
      if i = q ∧ j = q then c else if i = q ∧ j = p then -s else if i = p ∧ j = q then s
      else if i = p ∧ j = p then c else if i = j then 1 else 0 := by
  simp only [jacobiRotation, fillIdentity_eq_one, Mat3.setAt, Matrix.one_apply]

set_option maxHeartbeats 1600000 in
/-- The rotation built by `Jacobi` for an off-diagonal pair and a cosine–sine
pair is orthogonal. -/
theorem jacobiRotation_orthogonal (J : Mat3 K) (p q : Fin 3) (c s : K) (hpq : p ≠ q)
    (hcs : c * c + s * s = 1) :
    Mat3.Mul3 (Mat3.Transposed (jacobiRotation J p q c s)) (jacobiRotation J p q c s) = 1 ∧
    Mat3.Mul3 (jacobiRotation J p q c s) (Mat3.Transposed (jacobiRotation J p q c s)) = 1 := by
  have hcs2 : s * s + c * c = 1 := by linarith
  simp only [Mat3.Mul3, Mat3.Transposed]
  constructor <;>
  · ext i j
    simp only [Matrix.mul_apply, Fin.sum_univ_three, Matrix.transpose_apply,
      jacobiRotation_apply, Matrix.one_apply]
    revert hpq
    fin_cases p <;> fin_cases q <;> fin_cases i <;> fin_cases j <;> intro hpq <;>
      first
        | exact absurd rfl hpq
        | (simp <;> first | exact hcs | exact hcs2 | ring)

/-- One accumulation step `v ← v·J`, `a ← Jᵗ·a·J` with an orthogonal `J` keeps
`vᵗ·v = 1` and `v·a·vᵗ`. -/
theorem rotation_step_invariants (v a J A0 : Mat3 K)
    (h1 : Mat3.Mul3 (Mat3.Transposed J) J = 1) (h2 : Mat3.Mul3 J (Mat3.Transposed J) = 1)
    (hv : Mat3.Mul3 (Mat3.Transposed v) v = 1)
    (hr : Mat3.Mul3 (Mat3.Mul3 v a) (Mat3.Transposed v) = A0) :
    Mat3.Mul3 (Mat3.Transposed (Mat3.Mul3 v J)) (Mat3.Mul3 v J) = 1 ∧
    Mat3.Mul3 (Mat3.Mul3 (Mat3.Mul3 v J) (Mat3.Mul3 (Mat3.Mul3 (Mat3.Transposed J) a) J))
      (Mat3.Transposed (Mat3.Mul3 v J)) = A0 := by
  simp only [Mat3.Mul3, Mat3.Transposed] at *
  have k1 : ∀ X : Matrix (Fin 3) (Fin 3) K, Matrix.transpose v * (v * X) = X := fun X => by
    rw [← Matrix.mul_assoc, hv, Matrix.one_mul]
  have k2 : ∀ X : Matrix (Fin 3) (Fin 3) K, J * (Matrix.transpose J * X) = X := fun X => by
    rw [← Matrix.mul_assoc, h2, Matrix.one_mul]
  constructor
  · rw [Matrix.transpose_mul, Matrix.mul_assoc, k1, h1]
  · rw [Matrix.transpose_mul]
    simp only [Matrix.mul_assoc, k2]
    rw [← hr, Matrix.mul_assoc]

/-- The main loop keeps the accumulated `v` orthogonal and `v·a·vᵗ` unchanged. -/
theorem jacobiLoop_invariants (sqrt : K → K) (hs : ∀ x : K, 0 ≤ x → sqrt x * sqrt x = x)
    (A0 : Mat3 K) : ∀ (fuel n : Nat) (st : JacobiState K),
    Mat3.Mul3 (Mat3.Transposed st.v) st.v = 1 →
    Mat3.Mul3 (Mat3.Mul3 st.v st.a) (Mat3.Transposed st.v) = A0 →
    Mat3.Mul3 (Mat3.Transposed (jacobiLoop sqrt fuel n st).v) (jacobiLoop sqrt fuel n st).v = 1 ∧
    Mat3.Mul3 (Mat3.Mul3 (jacobiLoop sqrt fuel n st).v (jacobiLoop sqrt fuel n st).a)
      (Mat3.Transposed (jacobiLoop sqrt fuel n st).v) = A0 := by
  intro fuel
  induction fuel with
  | zero =>
    intro n st hv hr
    exact ⟨hv, hr⟩
  | succ fuel ih =>
    intro n st hv hr
    obtain ⟨o1, o2⟩ := jacobiRotation_orthogonal st.J (largestOffDiagonal st.a).1
      (largestOffDiagonal st.a).2
      (SymSchur2 sqrt st.a (largestOffDiagonal st.a).1 (largestOffDiagonal st.a).2).1
      (SymSchur2 sqrt st.a (largestOffDiagonal st.a).1 (largestOffDiagonal st.a).2).2
      (largestOffDiagonal_ne st.a) (SymSchur2_sq_add_sq sqrt hs _ _ _)
    obtain ⟨s1, s2⟩ := rotation_step_invariants st.v st.a _ A0 o1 o2 hv hr
    simp only [jacobiLoop]
    split_ifs with hstop
    · exact ⟨s1, s2⟩
    · exact ih _ _ s1 s2

/-- C11: in exact real arithmetic, after `Jacobi(a, v)` the accumulated matrix `v`
is orthonormal, `vᵗ·v = Identity`, whatever `a` and `v` held before the call. -/
theorem Jacobi_orthonormal (a v : Mat3 ℝ) :
    Mat3.Mul3 (Mat3.Transposed (Jacobi Real.sqrt a v).2) (Jacobi Real.sqrt a v).2 = 1 := by
  have h := jacobiLoop_invariants Real.sqrt (fun x hx => Real.mul_self_sqrt hx) a 50 0
    { a := a, v := fillIdentity v, J := 0, prevoff := 0 }
    (by simp [fillIdentity_eq_one, Mat3.Mul3, Mat3.Transposed])
    (by simp [fillIdentity_eq_one, Mat3.Mul3, Mat3.Transposed])
  exact h.1

/-- C12: in exact real arithmetic, after `Jacobi(a, v)` started with `a = A0` the
outputs reconstruct the original matrix, `v·a_final·vᵗ = A0` (for every `A0`,
symmetric ones in particular). -/
theorem Jacobi_reconstructs (A0 v : Mat3 ℝ) :
    Mat3.Mul3 (Mat3.Mul3 (Jacobi Real.sqrt A0 v).2 (Jacobi Real.sqrt A0 v).1)
      (Mat3.Transposed (Jacobi Real.sqrt A0 v).2) = A0 := by
  have h := jacobiLoop_invariants Real.sqrt (fun x hx => Real.mul_self_sqrt hx) A0 50 0
    { a := A0, v := fillIdentity v, J := 0, prevoff := 0 }
    (by simp [fillIdentity_eq_one, Mat3.Mul3, Mat3.Transposed])
    (by simp [fillIdentity_eq_one, Mat3.Mul3, Mat3.Transposed])
  exact h.2

/-- On a matrix whose off-diagonal entries vanish, the main loop leaves `a` and
`v` unchanged: no rotation is applied. -/
theorem jacobiLoop_of_diagonal (sqrt : K → K) : ∀ (fuel n : Nat) (st : JacobiState K),
    (∀ i j : Fin 3, i ≠ j → st.a i j = 0) →
    (jacobiLoop sqrt fuel n st).a = st.a ∧ (jacobiLoop sqrt fuel n st).v = st.v := by
  intro fuel
  induction fuel with
  | zero =>
    intro n st _
    exact ⟨rfl, rfl⟩
  | succ fuel ih =>
    intro n st hst
    have hpq : largestOffDiagonal st.a = (0, 1) := by
      unfold largestOffDiagonal
      apply foldl_preserves (fun pq : Fin 3 × Fin 3 => pq = (0, 1))
      · intro pq i hpq
        apply foldl_preserves (fun pq : Fin 3 × Fin 3 => pq = (0, 1))
        · intro pq j hpq
          split_ifs with h1 h2
          · exact hpq
          · rw [hpq, hst i j h1, hst 0 1 (by decide)] at h2
            exact absurd h2 (lt_irrefl _)
          · exact hpq
        · exact hpq
      · rfl
    have hcs : SymSchur2 sqrt st.a 0 1 = (1, 0) := by
      unfold SymSchur2
      rw [hst 0 1 (by decide)]
      norm_num [math.Abs]
    have hJ : jacobiRotation st.J 0 1 (1 : K) 0 = 1 := by
      ext i j
      rw [jacobiRotation_apply]
      fin_cases i <;> fin_cases j <;> simp
    have hv : Mat3.Mul3 st.v (1 : Mat3 K) = st.v := by simp [Mat3.Mul3]
    have ha : Mat3.Mul3 (Mat3.Mul3 (Mat3.Transposed (1 : Mat3 K)) st.a) 1 = st.a := by
      simp [Mat3.Mul3, Mat3.Transposed]
    simp only [jacobiLoop, hpq, hcs, hJ, hv, ha]
    split_ifs with hstop
    · exact ⟨rfl, rfl⟩
    · exact ih _ _ hst

/-- The centroid sum of points on the x-axis stays on the x-axis. -/
theorem centroid_fold_axis (l : List (Vec3 K)) (hl : ∀ pt ∈ l, pt.y = 0 ∧ pt.z = 0) :
    ∀ c : Vec3 K, c.y = 0 → c.z = 0 →
      (l.foldl (fun c pt => c.AddWith pt) c).y = 0 ∧
      (l.foldl (fun c pt => c.AddWith pt) c).z = 0 := by
  induction l with
  | nil => intro c hy hz; exact ⟨hy, hz⟩
  | cons x xs ih =>
    intro c hy hz
    have hx := hl x (List.mem_cons_self x xs)
    exact ih (fun pt hpt => hl pt (List.mem_cons_of_mem x hpt)) _
      (by simp [Vec3.AddWith, hy, hx.1]) (by simp [Vec3.AddWith, hz, hx.2])

/-- The covariance sums of points on the x-axis about a centre on the x-axis:
only `e00` grows, and it grows strictly when some point is off the centre. -/
theorem covariance_fold_axis (c : Vec3 K) (hcy : c.y = 0) (hcz : c.z = 0) (l : List (Vec3 K))
    (hl : ∀ pt ∈ l, pt.y = 0 ∧ pt.z = 0) :
    ∀ e : CovSums K, e.e11 = 0 → e.e22 = 0 → e.e01 = 0 → e.e02 = 0 → e.e12 = 0 →
      (l.foldl (covarianceStep c) e).e11 = 0 ∧ (l.foldl (covarianceStep c) e).e22 = 0 ∧
      (l.foldl (covarianceStep c) e).e01 = 0 ∧ (l.foldl (covarianceStep c) e).e02 = 0 ∧
      (l.foldl (covarianceStep c) e).e12 = 0 ∧
      e.e00 ≤ (l.foldl (covarianceStep c) e).e00 ∧
      ((∃ pt ∈ l, pt.x ≠ c.x) → e.e00 < (l.foldl (covarianceStep c) e).e00) := by
  induction l with
  | nil =>
    intro e h1 h2 h3 h4 h5
    refine ⟨h1, h2, h3, h4, h5, le_refl _, ?_⟩
    rintro ⟨pt, hpt, _⟩
    exact absurd hpt (List.not_mem_nil pt)
  | cons x xs ih =>
    intro e h1 h2 h3 h4 h5
    have hx := hl x (List.mem_cons_self x xs)
    have hy0 : (x.Sub c).y = 0 := by simp [Vec3.Sub, hx.1, hcy]
    have hz0 : (x.Sub c).z = 0 := by simp [Vec3.Sub, hx.2, hcz]
    have e00 : (covarianceStep c e x).e00 = e.e00 + (x.x - c.x) * (x.x - c.x) := rfl
    obtain ⟨r1, r2, r3, r4, r5, r6, r7⟩ := ih (fun pt hpt => hl pt (List.mem_cons_of_mem x hpt))
      (covarianceStep c e x)
      (by simp [covarianceStep, h1, hy0]) (by simp [covarianceStep, h2, hz0])
      (by simp [covarianceStep, h3, hy0]) (by simp [covarianceStep, h4, hz0])
      (by simp [covarianceStep, h5, hy0])
    simp only [List.foldl_cons]
    rw [e00] at r6 r7
    have hsq : 0 ≤ (x.x - c.x) * (x.x - c.x) := mul_self_nonneg _
    refine ⟨r1, r2, r3, r4, r5, by linarith, ?_⟩
    rintro ⟨pt, hpt, hne⟩
    rcases List.mem_cons.mp hpt with rfl | hmem
    · have hpos : 0 < (pt.x - c.x) * (pt.x - c.x) := mul_self_pos.mpr (sub_ne_zero.mpr hne)
      linarith
    · have := r7 ⟨pt, hmem, hne⟩
      linarith

/-- The nine entries written by `CovarianceMatrix3`. -/
theorem CovarianceMatrix3_entries (cov : Mat3 K) (points : List (Vec3 K)) :
    CovarianceMatrix3 cov points 0 0 =
      (points.foldl (covarianceStep ((points.foldl (fun c pt => c.AddWith pt)
        (⟨0, 0, 0⟩ : Vec3 K)).MulWith (1 / (points.length : K)))) ⟨0, 0, 0, 0, 0, 0⟩).e00 * (1 / (points.length : K)) ∧
    CovarianceMatrix3 cov points 1 1 =
      (points.foldl (covarianceStep ((points.foldl (fun c pt => c.AddWith pt)
        (⟨0, 0, 0⟩ : Vec3 K)).MulWith (1 / (points.length : K)))) ⟨0, 0, 0, 0, 0, 0⟩).e11 * (1 / (points.length : K)) ∧
    CovarianceMatrix3 cov points 2 2 =
      (points.foldl (covarianceStep ((points.foldl (fun c pt => c.AddWith pt)
        (⟨0, 0, 0⟩ : Vec3 K)).MulWith (1 / (points.length : K)))) ⟨0, 0, 0, 0, 0, 0⟩).e22 * (1 / (points.length : K)) ∧
    CovarianceMatrix3 cov points 1 0 =
      (points.foldl (covarianceStep ((points.foldl (fun c pt => c.AddWith pt)
        (⟨0, 0, 0⟩ : Vec3 K)).MulWith (1 / (points.length : K)))) ⟨0, 0, 0, 0, 0, 0⟩).e01 * (1 / (points.length : K)) ∧
    CovarianceMatrix3 cov points 2 0 =
      (points.foldl (covarianceStep ((points.foldl (fun c pt => c.AddWith pt)
        (⟨0, 0, 0⟩ : Vec3 K)).MulWith (1 / (points.length : K)))) ⟨0, 0, 0, 0, 0, 0⟩).e02 * (1 / (points.length : K)) ∧
    CovarianceMatrix3 cov points 2 1 =
      (points.foldl (covarianceStep ((points.foldl (fun c pt => c.AddWith pt)
        (⟨0, 0, 0⟩ : Vec3 K)).MulWith (1 / (points.length : K)))) ⟨0, 0, 0, 0, 0, 0⟩).e12 * (1 / (points.length : K)) ∧
    CovarianceMatrix3 cov points 0 1 =
      (points.foldl (covarianceStep ((points.foldl (fun c pt => c.AddWith pt)
        (⟨0, 0, 0⟩ : Vec3 K)).MulWith (1 / (points.length : K)))) ⟨0, 0, 0, 0, 0, 0⟩).e01 * (1 / (points.length : K)) ∧
    CovarianceMatrix3 cov points 0 2 =
      (points.foldl (covarianceStep ((points.foldl (fun c pt => c.AddWith pt)
        (⟨0, 0, 0⟩ : Vec3 K)).MulWith (1 / (points.length : K)))) ⟨0, 0, 0, 0, 0, 0⟩).e02 * (1 / (points.length : K)) ∧
    CovarianceMatrix3 cov points 1 2 =
      (points.foldl (covarianceStep ((points.foldl (fun c pt => c.AddWith pt)
        (⟨0, 0, 0⟩ : Vec3 K)).MulWith (1 / (points.length : K)))) ⟨0, 0, 0, 0, 0, 0⟩).e12 * (1 / (points.length : K)) :=
  ⟨rfl, rfl, rfl, rfl, rfl, rfl, rfl, rfl, rfl⟩

/-- The covariance matrix of points on the x-axis that are not all equal is
`diag(λ, 0, 0)` with `λ > 0`. -/
theorem CovarianceMatrix3_axis (cov : Mat3 K) (points : List (Vec3 K))
    (haxis : ∀ pt ∈ points, pt.y = 0 ∧ pt.z = 0)
    (hne : ∃ p ∈ points, ∃ q ∈ points, p ≠ q) :
    0 < CovarianceMatrix3 cov points 0 0 ∧ CovarianceMatrix3 cov points 1 1 = 0 ∧
    CovarianceMatrix3 cov points 2 2 = 0 ∧
    ∀ i j : Fin 3, i ≠ j → CovarianceMatrix3 cov points i j = 0 := by
  obtain ⟨p, hp, q, hq, hpq⟩ := hne
  have hlen : 0 < (points.length : K) := by
    have : 0 < points.length := List.length_pos_of_mem hp
    exact_mod_cast this
  have hoon : 0 < 1 / (points.length : K) := one_div_pos.mpr hlen
  obtain ⟨cy, cz⟩ := centroid_fold_axis points haxis ⟨0, 0, 0⟩ rfl rfl
  have hcy : ((points.foldl (fun c pt => c.AddWith pt) (⟨0, 0, 0⟩ : Vec3 K)).MulWith
      (1 / (points.length : K))).y = 0 := by simp [Vec3.MulWith, cy]
  have hcz : ((points.foldl (fun c pt => c.AddWith pt) (⟨0, 0, 0⟩ : Vec3 K)).MulWith
      (1 / (points.length : K))).z = 0 := by simp [Vec3.MulWith, cz]
  have hoff : ∃ pt ∈ points, pt.x ≠ ((points.foldl (fun c pt => c.AddWith pt)
      (⟨0, 0, 0⟩ : Vec3 K)).MulWith (1 / (points.length : K))).x := by
    by_contra hall
    push_neg at hall
    apply hpq
    ext
    · rw [hall p hp, hall q hq]
    · rw [(haxis p hp).1, (haxis q hq).1]
    · rw [(haxis p hp).2, (haxis q hq).2]
  obtain ⟨r1, r2, r3, r4, r5, _, r7⟩ := covariance_fold_axis _ hcy hcz points haxis
    ⟨0, 0, 0, 0, 0, 0⟩ rfl rfl rfl rfl rfl
  have r7 := r7 hoff
  dsimp only at r7
  obtain ⟨k00, k11, k22, k10, k20, k21, k01, k02, k12⟩ := CovarianceMatrix3_entries cov points
  generalize 1 / (points.length : K) = oon at *
  generalize points.foldl (covarianceStep ((points.foldl (fun c pt => c.AddWith pt)
      (⟨0, 0, 0⟩ : Vec3 K)).MulWith oon)) ⟨0, 0, 0, 0, 0, 0⟩ = e at *
  rw [r3] at k10 k01
  rw [r4] at k20 k02
  rw [r5] at k21 k12
  rw [zero_mul] at k10 k01 k20 k02 k21 k12
  refine ⟨?_, ?_, ?_, ?_⟩
  · rw [k00]
    exact mul_pos r7 hoon
  · rw [k11, r1, zero_mul]
  · rw [k22, r2, zero_mul]
  · intro i j hij
    fin_cases i <;> fin_cases j <;> first
      | exact absurd rfl hij
      | exact k01
      | exact k02
      | exact k10
      | exact k12

/-- C13: for a list of points on the x-axis (`y = 0`, `z = 0`) that are not all
equal (so the list is non-empty), `CovarianceMatrix3` followed by `Jacobi` leaves the largest
diagonal entry of `cov` at `cov[0]`, and column 0 of `v` is (1,0,0) or
(-1,0,0). -/
theorem Jacobi_of_axis_points (sqrt : K → K) (cov v : Mat3 K) (points : List (Vec3 K))
    (haxis : ∀ pt ∈ points, pt.y = 0 ∧ pt.z = 0)
    (hne : ∃ p ∈ points, ∃ q ∈ points, p ≠ q) :
    (Jacobi sqrt (CovarianceMatrix3 cov points) v).1 1 1
        ≤ (Jacobi sqrt (CovarianceMatrix3 cov points) v).1 0 0 ∧
    (Jacobi sqrt (CovarianceMatrix3 cov points) v).1 2 2
        ≤ (Jacobi sqrt (CovarianceMatrix3 cov points) v).1 0 0 ∧
    (((Jacobi sqrt (CovarianceMatrix3 cov points) v).2 0 0 = 1 ∧
        (Jacobi sqrt (CovarianceMatrix3 cov points) v).2 1 0 = 0 ∧
        (Jacobi sqrt (CovarianceMatrix3 cov points) v).2 2 0 = 0) ∨
      ((Jacobi sqrt (CovarianceMatrix3 cov points) v).2 0 0 = -1 ∧
        (Jacobi sqrt (CovarianceMatrix3 cov points) v).2 1 0 = 0 ∧
        (Jacobi sqrt (CovarianceMatrix3 cov points) v).2 2 0 = 0)) := by
  obtain ⟨h00, h11, h22, hoff⟩ := CovarianceMatrix3_axis cov points haxis hne
  obtain ⟨ha, hv⟩ := jacobiLoop_of_diagonal sqrt 50 0
    { a := CovarianceMatrix3 cov points, v := fillIdentity v, J := 0, prevoff := 0 } hoff
  have e1 : (Jacobi sqrt (CovarianceMatrix3 cov points) v).1 = CovarianceMatrix3 cov points := ha
  have e2 : (Jacobi sqrt (CovarianceMatrix3 cov points) v).2 = 1 := by
    rw [← fillIdentity_eq_one v]
    exact hv
  rw [e1, e2, h11, h22]
  refine ⟨le_of_lt h00, le_of_lt h00, Or.inl ⟨?_, ?_, ?_⟩⟩ <;> simp

/-- Witness for C13: the points (-1,0,0), (0,0,0), (1,0,0) of the spec's scenario. -/
theorem Jacobi_of_axis_points_witness :
    (Jacobi (fun x : ℚ => x)
        (CovarianceMatrix3 0 [⟨-1, 0, 0⟩, ⟨0, 0, 0⟩, ⟨1, 0, 0⟩]) 0).1 1 1
      ≤ (Jacobi (fun x : ℚ => x)
        (CovarianceMatrix3 0 [⟨-1, 0, 0⟩, ⟨0, 0, 0⟩, ⟨1, 0, 0⟩]) 0).1 0 0 ∧
    (Jacobi (fun x : ℚ => x)
        (CovarianceMatrix3 0 [⟨-1, 0, 0⟩, ⟨0, 0, 0⟩, ⟨1, 0, 0⟩]) 0).1 2 2
      ≤ (Jacobi (fun x : ℚ => x)
        (CovarianceMatrix3 0 [⟨-1, 0, 0⟩, ⟨0, 0, 0⟩, ⟨1, 0, 0⟩]) 0).1 0 0 ∧
    (((Jacobi (fun x : ℚ => x)
        (CovarianceMatrix3 0 [⟨-1, 0, 0⟩, ⟨0, 0, 0⟩, ⟨1, 0, 0⟩]) 0).2 0 0 = 1 ∧
      (Jacobi (fun x : ℚ => x)
        (CovarianceMatrix3 0 [⟨-1, 0, 0⟩, ⟨0, 0, 0⟩, ⟨1, 0, 0⟩]) 0).2 1 0 = 0 ∧
      (Jacobi (fun x : ℚ => x)
        (CovarianceMatrix3 0 [⟨-1, 0, 0⟩, ⟨0, 0, 0⟩, ⟨1, 0, 0⟩]) 0).2 2 0 = 0) ∨
     ((Jacobi (fun x : ℚ => x)
        (CovarianceMatrix3 0 [⟨-1, 0, 0⟩, ⟨0, 0, 0⟩, ⟨1, 0, 0⟩]) 0).2 0 0 = -1 ∧
      (Jacobi (fun x : ℚ => x)
        (CovarianceMatrix3 0 [⟨-1, 0, 0⟩, ⟨0, 0, 0⟩, ⟨1, 0, 0⟩]) 0).2 1 0 = 0 ∧
      (Jacobi (fun x : ℚ => x)
        (CovarianceMatrix3 0 [⟨-1, 0, 0⟩, ⟨0, 0, 0⟩, ⟨1, 0, 0⟩]) 0).2 2 0 = 0)) :=
  Jacobi_of_axis_points (fun x : ℚ => x) 0 0 [⟨-1, 0, 0⟩, ⟨0, 0, 0⟩, ⟨1, 0, 0⟩]
    (by simp) ⟨⟨-1, 0, 0⟩, by simp, ⟨0, 0, 0⟩, by simp, by simp⟩

/-! ## Barycentric coordinates (`geo/barycentric.go`) -/

/-- C14 (failing input): for the non-degenerate triangle a = (0,0,0), b = (2,0,0),
c = (0,1,0) and the point p = b of its plane, the code returns
(u, v, w) = (-3, 4, 0), and `u*a + v*b + w*c` has x-coordinate 8, not 2. -/
theorem Barycentric_not_coordinates :
    Barycentric (⟨0, 0, 0⟩ : Vec3 ℚ) ⟨2, 0, 0⟩ ⟨0, 1, 0⟩ ⟨2, 0, 0⟩ = (-3, 4, 0) ∧
    (Barycentric (⟨0, 0, 0⟩ : Vec3 ℚ) ⟨2, 0, 0⟩ ⟨0, 1, 0⟩ ⟨2, 0, 0⟩).1 * 0 +
      (Barycentric (⟨0, 0, 0⟩ : Vec3 ℚ) ⟨2, 0, 0⟩ ⟨0, 1, 0⟩ ⟨2, 0, 0⟩).2.1 * 2 +
      (Barycentric (⟨0, 0, 0⟩ : Vec3 ℚ) ⟨2, 0, 0⟩ ⟨0, 1, 0⟩ ⟨2, 0, 0⟩).2.2 * 0 = 8 := by
  constructor <;> norm_num [Barycentric, Vec3.Sub, Vec3.Dot]

/-- C15 (failing input): for the triangle a = (0,0,0), b = (2,0,0), c = (0,1,0)
the midpoint p = (1,0,0) = a + (1/2)*(b-a) + 0*(c-a) of the edge `ab` lies on
the triangle, yet `IsPointInTriangle` returns false. -/
theorem IsPointInTriangle_rejects_edge_midpoint :
    (⟨1, 0, 0⟩ : Vec3 ℚ) = ((⟨0, 0, 0⟩ : Vec3 ℚ).AddScaledVec (1 / 2)
        ((⟨2, 0, 0⟩ : Vec3 ℚ).Sub ⟨0, 0, 0⟩)).AddScaledVec 0 ((⟨0, 1, 0⟩ : Vec3 ℚ).Sub ⟨0, 0, 0⟩) ∧
    IsPointInTriangle (⟨1, 0, 0⟩ : Vec3 ℚ) ⟨0, 0, 0⟩ ⟨2, 0, 0⟩ ⟨0, 1, 0⟩ = false := by
  constructor <;>
    norm_num [IsPointInTriangle, Barycentric, Vec3.Sub, Vec3.Dot, Vec3.AddScaledVec]

/-! ## Extreme-point scans -/

theorem extremeStep_invariant (pre : List K) (proj : K) (st : ExtremeState K)
    (h : ExtremeInv pre st) : ExtremeInv (pre ++ [proj]) (extremeStep pre.length proj st) := by
  obtain ⟨hmin, hmax, himin, himax⟩ := h
  have hlast : (pre ++ [proj])[pre.length]? = some proj := by simp
  have hkeep : ∀ (i : Nat) (x : K), pre[i]? = some x → (pre ++ [proj])[i]? = some x := by
    intro i x hi
    have hlt : i < pre.length := by
      by_contra hge
      rw [List.getElem?_eq_none (not_lt.mp hge)] at hi
      exact absurd hi (by simp)
    rw [List.getElem?_append_left hlt]
    exact hi
  unfold extremeStep
  by_cases h1 : proj < st.minproj
  · by_cases h2 : proj > st.maxproj
    · simp only [h1, h2, if_true]
      refine ⟨?_, ?_, Or.inr ⟨pre.length, rfl, hlast⟩, Or.inr ⟨pre.length, rfl, hlast⟩⟩
      · intro x hx
        rcases List.mem_append.mp hx with hx | hx
        · exact le_trans (le_of_lt h1) (hmin x hx)
        · rw [List.mem_singleton.mp hx]
      · intro x hx
        rcases List.mem_append.mp hx with hx | hx
        · exact le_trans (hmax x hx) (le_of_lt h2)
        · rw [List.mem_singleton.mp hx]
    · simp only [h1, h2, if_true, if_false]
      refine ⟨?_, ?_, Or.inr ⟨pre.length, rfl, hlast⟩, ?_⟩
      · intro x hx
        rcases List.mem_append.mp hx with hx | hx
        · exact le_trans (le_of_lt h1) (hmin x hx)
        · rw [List.mem_singleton.mp hx]
      · intro x hx
        rcases List.mem_append.mp hx with hx | hx
        · exact hmax x hx
        · rw [List.mem_singleton.mp hx]
          exact not_lt.mp h2
      · rcases himax with h | ⟨j, hj, hjx⟩
        · exact Or.inl h
        · exact Or.inr ⟨j, hj, hkeep j _ hjx⟩
  · by_cases h2 : proj > st.maxproj
    · simp only [h1, h2, if_true, if_false]
      refine ⟨?_, ?_, ?_, Or.inr ⟨pre.length, rfl, hlast⟩⟩
      · intro x hx
        rcases List.mem_append.mp hx with hx | hx
        · exact hmin x hx
        · rw [List.mem_singleton.mp hx]
          exact not_lt.mp h1
      · intro x hx
        rcases List.mem_append.mp hx with hx | hx
        · exact le_trans (hmax x hx) (le_of_lt h2)
        · rw [List.mem_singleton.mp hx]
      · rcases himin with h | ⟨i, hi, hix⟩
        · exact Or.inl h
        · exact Or.inr ⟨i, hi, hkeep i _ hix⟩
    · simp only [h1, h2, if_false]
      refine ⟨?_, ?_, ?_, ?_⟩
      · intro x hx
        rcases List.mem_append.mp hx with hx | hx
        · exact hmin x hx
        · rw [List.mem_singleton.mp hx]
          exact not_lt.mp h1
      · intro x hx
        rcases List.mem_append.mp hx with hx | hx
        · exact hmax x hx
        · rw [List.mem_singleton.mp hx]
          exact not_lt.mp h2
      · rcases himin with h | ⟨i, hi, hix⟩
        · exact Or.inl h
        · exact Or.inr ⟨i, hi, hkeep i _ hix⟩
      · rcases himax with h | ⟨j, hj, hjx⟩
        · exact Or.inl h
        · exact Or.inr ⟨j, hj, hkeep j _ hjx⟩

theorem extremeLoop_invariant (l : List K) : ∀ (pre : List K) (st : ExtremeState K),
    ExtremeInv pre st → ExtremeInv (pre ++ l) (extremeLoop l pre.length st) := by
  induction l with
  | nil =>
    intro pre st h
    simpa [extremeLoop] using h
  | cons x xs ih =>
    intro pre st h
    have h1 := ih (pre ++ [x]) _ (extremeStep_invariant pre x st h)
    simpa [extremeLoop, List.append_assoc] using h1

/-- The scan over a non-empty list of projections strictly between `-MaxFloat32`
and `MaxFloat32` ends with valid indices of a least and a greatest projection. -/
theorem extremeLoop_spec (l : List K) (hne : l ≠ [])
    (hb : ∀ x ∈ l, -math.MaxFloat32 < x ∧ x < math.MaxFloat32) :
    ∃ (i j : Nat) (lo hi : K),
      (extremeLoop l 0 ⟨-1, -1, math.MaxFloat32, -math.MaxFloat32⟩).imin = (i : Int) ∧
      (extremeLoop l 0 ⟨-1, -1, math.MaxFloat32, -math.MaxFloat32⟩).imax = (j : Int) ∧
      l[i]? = some lo ∧ l[j]? = some hi ∧ ∀ x ∈ l, lo ≤ x ∧ x ≤ hi := by
  have h0 : ExtremeInv ([] : List K) ⟨-1, -1, math.MaxFloat32, -math.MaxFloat32⟩ :=
    ⟨fun x hx => absurd hx (List.not_mem_nil x), fun x hx => absurd hx (List.not_mem_nil x),
      Or.inl ⟨rfl, rfl⟩, Or.inl ⟨rfl, rfl⟩⟩
  have h := extremeLoop_invariant l [] _ h0
  simp only [List.nil_append, List.length_nil] at h
  obtain ⟨hmin, hmax, himin, himax⟩ := h
  obtain ⟨y, hy⟩ := List.exists_mem_of_ne_nil l hne
  rcases himin with ⟨_, hm⟩ | ⟨i, hi, hix⟩
  · have := hmin y hy
    rw [hm] at this
    exact absurd (hb y hy).2 (not_lt.mpr this)
  · rcases himax with ⟨_, hm⟩ | ⟨j, hj, hjx⟩
    · have := hmax y hy
      rw [hm] at this
      exact absurd (hb y hy).1 (not_lt.mpr this)
    · exact ⟨i, j, _, _, hi, hj, hix, hjx, fun x hx => ⟨hmin x hx, hmax x hx⟩⟩

/-- The extreme-point scan over the projections `f pt` of a non-empty list of
points, all strictly between `-MaxFloat32` and `MaxFloat32`. -/
theorem extremeLoop_map_spec {α : Type} (f : α → K) (points : List α) (hne : points ≠ [])
    (hb : ∀ pt ∈ points, -math.MaxFloat32 < f pt ∧ f pt < math.MaxFloat32) :
    ∃ (i j : Nat) (pmin pmax : α),
      (extremeLoop (points.map f) 0 ⟨-1, -1, math.MaxFloat32, -math.MaxFloat32⟩).imin
        = (i : Int) ∧
      (extremeLoop (points.map f) 0 ⟨-1, -1, math.MaxFloat32, -math.MaxFloat32⟩).imax
        = (j : Int) ∧
      points[i]? = some pmin ∧ points[j]? = some pmax ∧
      ∀ pk ∈ points, f pmin ≤ f pk ∧ f pk ≤ f pmax := by
  have hne2 : points.map f ≠ [] := by
    intro h
    exact hne (List.map_eq_nil_iff.mp h)
  have hb2 : ∀ x ∈ points.map f, -math.MaxFloat32 < x ∧ x < math.MaxFloat32 := by
    intro x hx
    obtain ⟨pt, hpt, rfl⟩ := List.mem_map.mp hx
    exact hb pt hpt
  obtain ⟨i, j, lo, hi, e1, e2, hlo, hhi, hall⟩ := extremeLoop_spec (points.map f) hne2 hb2
  rw [List.getElem?_map] at hlo hhi
  obtain ⟨pmin, hpmin, rfl⟩ := Option.map_eq_some'.mp hlo
  obtain ⟨pmax, hpmax, rfl⟩ := Option.map_eq_some'.mp hhi
  exact ⟨i, j, pmin, pmax, e1, e2, hpmin, hpmax,
    fun pk hpk => hall (f pk) (List.mem_map_of_mem f hpk)⟩

/-- C19: `ExtremePointsAlongDirection2` and `ExtremePointsAlongDirection3` return
(-1,-1) on the empty list; on a non-empty list whose projections all lie
strictly between `-MaxFloat32` and `MaxFloat32` they return valid indices
`(imin, imax)` of a point of least and a point of greatest projection.  The
projections are the values `dot point direction` the code compares, for
whatever the foundation's dot product computes (the exact dot product `Vec2.Dot`,
`Vec3.Dot`, or its `float32` rounding). -/
theorem ExtremePointsAlongDirection_spec :
    (∀ (dot : Vec2 K → Vec2 K → K) (direction : Vec2 K),
      ExtremePointsAlongDirection2 dot direction [] = (-1, -1)) ∧
    (∀ (dot : Vec3 K → Vec3 K → K) (direction : Vec3 K),
      ExtremePointsAlongDirection3 dot direction [] = (-1, -1)) ∧
    (∀ (dot : Vec2 K → Vec2 K → K) (direction : Vec2 K) (points : List (Vec2 K)),
      points ≠ [] →
      (∀ pt ∈ points,
        -math.MaxFloat32 < dot pt direction ∧ dot pt direction < math.MaxFloat32) →
      ∃ (imin imax : Nat) (pmin pmax : Vec2 K),
        ExtremePointsAlongDirection2 dot direction points = ((imin : Int), (imax : Int)) ∧
        points[imin]? = some pmin ∧ points[imax]? = some pmax ∧
        ∀ pk ∈ points,
          dot pmin direction ≤ dot pk direction ∧ dot pk direction ≤ dot pmax direction) ∧
    (∀ (dot : Vec3 K → Vec3 K → K) (direction : Vec3 K) (points : List (Vec3 K)),
      points ≠ [] →
      (∀ pt ∈ points,
        -math.MaxFloat32 < dot pt direction ∧ dot pt direction < math.MaxFloat32) →
      ∃ (imin imax : Nat) (pmin pmax : Vec3 K),
        ExtremePointsAlongDirection3 dot direction points = ((imin : Int), (imax : Int)) ∧
        points[imin]? = some pmin ∧ points[imax]? = some pmax ∧
        ∀ pk ∈ points,
          dot pmin direction ≤ dot pk direction ∧ dot pk direction ≤ dot pmax direction) := by
  refine ⟨fun _ _ => rfl, fun _ _ => rfl, ?_, ?_⟩
  · intro dot direction points hne hb
    obtain ⟨i, j, pmin, pmax, e1, e2, h1, h2, h3⟩ :=
      extremeLoop_map_spec (fun pt : Vec2 K => dot pt direction) points hne hb
    refine ⟨i, j, pmin, pmax, ?_, h1, h2, h3⟩
    unfold ExtremePointsAlongDirection2
    simp only [e1, e2]
  · intro dot direction points hne hb
    obtain ⟨i, j, pmin, pmax, e1, e2, h1, h2, h3⟩ :=
      extremeLoop_map_spec (fun pt : Vec3 K => dot pt direction) points hne hb
    refine ⟨i, j, pmin, pmax, ?_, h1, h2, h3⟩
    unfold ExtremePointsAlongDirection3
    simp only [e1, e2]

/-- Witness for C19: four 2D points scanned along the x-axis with the exact dot
product; the least projection is at index 3 and the greatest at index 2. -/
theorem ExtremePointsAlongDirection_spec_witness :
    ExtremePointsAlongDirection2 Vec2.Dot (⟨1, 0⟩ : Vec2 ℚ)
      [⟨0, 1⟩, ⟨1, 1⟩, ⟨3, 1 / 2⟩, ⟨-1, 0⟩] = (3, 2) ∧
    ∃ (imin imax : Nat) (pmin pmax : Vec2 ℚ),
      ExtremePointsAlongDirection2 Vec2.Dot (⟨1, 0⟩ : Vec2 ℚ)
          [⟨0, 1⟩, ⟨1, 1⟩, ⟨3, 1 / 2⟩, ⟨-1, 0⟩]
        = ((imin : Int), (imax : Int)) ∧
      ([⟨0, 1⟩, ⟨1, 1⟩, ⟨3, 1 / 2⟩, ⟨-1, 0⟩] : List (Vec2 ℚ))[imin]? = some pmin ∧
      ([⟨0, 1⟩, ⟨1, 1⟩, ⟨3, 1 / 2⟩, ⟨-1, 0⟩] : List (Vec2 ℚ))[imax]? = some pmax ∧
      ∀ pk ∈ ([⟨0, 1⟩, ⟨1, 1⟩, ⟨3, 1 / 2⟩, ⟨-1, 0⟩] : List (Vec2 ℚ)),
        pmin.Dot ⟨1, 0⟩ ≤ pk.Dot ⟨1, 0⟩ ∧ pk.Dot ⟨1, 0⟩ ≤ pmax.Dot ⟨1, 0⟩ :=
  ⟨by norm_num [ExtremePointsAlongDirection2, extremeLoop, extremeStep, math.MaxFloat32,
      Vec2.Dot],
    ExtremePointsAlongDirection_spec.2.2.1 Vec2.Dot ⟨1, 0⟩
      [⟨0, 1⟩, ⟨1, 1⟩, ⟨3, 1 / 2⟩, ⟨-1, 0⟩]
      (by simp) (by
        intro pt hpt
        simp only [List.mem_cons, List.mem_singleton, List.not_mem_nil, or_false] at hpt
        rcases hpt with rfl | rfl | rfl | rfl <;> norm_num [Vec2.Dot, math.MaxFloat32])⟩

/-- The scan follows the projections as the foundation computes them: when the
dot product returns 10^8 for both points (10^8, 0) and (10^8, -3) along (1,1),
as the `float32` rounding of 10^8 and 99999997 does, the result is (0, 0),
whereas the exact dot product gives (1, 0). -/
theorem ExtremePointsAlongDirection2_follows_dot (dot : Vec2 ℚ → Vec2 ℚ → ℚ)
    (h0 : dot ⟨100000000, 0⟩ ⟨1, 1⟩ = 100000000)
    (h1 : dot ⟨100000000, -3⟩ ⟨1, 1⟩ = 100000000) :
    ExtremePointsAlongDirection2 dot ⟨1, 1⟩ [⟨100000000, 0⟩, ⟨100000000, -3⟩] = (0, 0) ∧
    ExtremePointsAlongDirection2 Vec2.Dot (⟨1, 1⟩ : Vec2 ℚ)
      [⟨100000000, 0⟩, ⟨100000000, -3⟩] = (1, 0) := by
  constructor
  · norm_num [ExtremePointsAlongDirection2, extremeLoop, extremeStep, math.MaxFloat32, h0, h1]
  · norm_num [ExtremePointsAlongDirection2, extremeLoop, extremeStep, math.MaxFloat32, Vec2.Dot]

/-! ## Farthest point from an edge -/

theorem pointFarthestLoop_invariant (sub : Vec2 K → Vec2 K → Vec2 K)
    (dot : Vec2 K → Vec2 K → K) (a e eperp : Vec2 K) (l : List (Vec2 K)) :
    ∀ (pre : List (Vec2 K)) (st : Int × K × K), FarthestInv sub dot a e eperp pre st →
      FarthestInv sub dot a e eperp (pre ++ l)
        (pointFarthestLoop sub dot a e eperp l pre.length st) := by
  induction l with
  | nil =>
    intro pre st h
    simpa [pointFarthestLoop] using h
  | cons x xs ih =>
    intro pre st h
    obtain ⟨hall, hidx⟩ := h
    have hlast : (pre ++ [x])[pre.length]? = some x := by simp
    have hkeep : ∀ (i : Nat) (q : Vec2 K), pre[i]? = some q → (pre ++ [x])[i]? = some q := by
      intro i q hi
      have hlt : i < pre.length := by
        by_contra hge
        rw [List.getElem?_eq_none (not_lt.mp hge)] at hi
        exact absurd hi (by simp)
      rw [List.getElem?_append_left hlt]
      exact hi
    have hpos0 : 0 < st.2.1 ∨ (st.2.1 = 0 ∧ 0 ≤ st.2.2) := by
      rcases hidx with ⟨_, h1, h2⟩ | ⟨_, _, _, _, _, _, h3⟩
      · exact Or.inr ⟨h1, le_of_eq h2.symm⟩
      · rcases h3 with h3 | h3
        · exact Or.inl h3
        · exact Or.inr ⟨h3.1, le_of_lt h3.2⟩
    have hstep : FarthestInv sub dot a e eperp (pre ++ [x])
        (if dot (sub x a) eperp > st.2.1 ∨
            (dot (sub x a) eperp = st.2.1 ∧ dot (sub x a) e > st.2.2)
          then ((pre.length : Int), dot (sub x a) eperp, dot (sub x a) e) else st) := by
      split_ifs with hb
      · refine ⟨?_, Or.inr ⟨pre.length, x, rfl, hlast, rfl, rfl, ?_⟩⟩
        · intro pt hpt
          rcases List.mem_append.mp hpt with hpt | hpt
          · have hn := hall pt hpt
            push_neg at hn
            simp only [gt_iff_lt, not_or, not_lt, not_and]
            rcases hb with hb | ⟨hb1, hb2⟩
            · exact ⟨by linarith [hn.1], fun heq => by linarith [hn.1]⟩
            · refine ⟨by linarith [hn.1], fun heq => ?_⟩
              have := hn.2 (by linarith)
              linarith
          · rw [List.mem_singleton.mp hpt]
            simp
        · simp only []
          rcases hb with hb | ⟨hb1, hb2⟩
          · rcases hpos0 with h0 | ⟨h0, _⟩
            · exact Or.inl (by linarith)
            · exact Or.inl (by linarith)
          · rcases hpos0 with h0 | ⟨h0, h0r⟩
            · exact Or.inl (by linarith)
            · exact Or.inr ⟨by linarith, by linarith⟩
      · refine ⟨?_, ?_⟩
        · intro pt hpt
          rcases List.mem_append.mp hpt with hpt | hpt
          · exact hall pt hpt
          · rw [List.mem_singleton.mp hpt]
            exact hb
        · rcases hidx with h | ⟨i, q, h1, h2, h3⟩
          · exact Or.inl h
          · exact Or.inr ⟨i, q, h1, hkeep i q h2, h3⟩
    have h1 := ih (pre ++ [x]) _ hstep
    simp only [List.append_assoc, List.singleton_append, List.length_append,
      List.length_singleton] at h1
    unfold pointFarthestLoop
    simp only []
    split_ifs with hb
    · simpa [hb] using h1
    · simpa [hb] using h1

/-- What the scan of `PointFarthestFromEdge` computes, for whatever the
foundation's `Sub` and `Dot` compute: with the offsets `d = dot (sub p a) eperp`,
`eperp = (-e.y, e.x)`, `e = sub b a`, and the projections `r = dot (sub p a) e`,
it returns -1 when every point has `d < 0`, or `d = 0` and `r ≤ 0`; otherwise it
returns a valid index of a point with `d > 0`, or `d = 0` and `r > 0`, such that
no point has a greater offset and, among the points tied at that offset, none
has a larger projection. -/
theorem PointFarthestFromEdge_scan (sub : Vec2 K → Vec2 K → Vec2 K)
    (dot : Vec2 K → Vec2 K → K) (a b : Vec2 K) (points : List (Vec2 K)) :
    (PointFarthestFromEdge sub dot a b points = -1 ∧
      ∀ pt ∈ points, dot (sub pt a) ⟨-(sub b a).y, (sub b a).x⟩ < 0 ∨
        (dot (sub pt a) ⟨-(sub b a).y, (sub b a).x⟩ = 0 ∧ dot (sub pt a) (sub b a) ≤ 0)) ∨
    (∃ (i : Nat) (q : Vec2 K), PointFarthestFromEdge sub dot a b points = (i : Int) ∧
      points[i]? = some q ∧
      (0 < dot (sub q a) ⟨-(sub b a).y, (sub b a).x⟩ ∨
        (dot (sub q a) ⟨-(sub b a).y, (sub b a).x⟩ = 0 ∧ 0 < dot (sub q a) (sub b a))) ∧
      ∀ pt ∈ points,
        dot (sub pt a) ⟨-(sub b a).y, (sub b a).x⟩
            < dot (sub q a) ⟨-(sub b a).y, (sub b a).x⟩ ∨
        (dot (sub pt a) ⟨-(sub b a).y, (sub b a).x⟩
            = dot (sub q a) ⟨-(sub b a).y, (sub b a).x⟩ ∧
          dot (sub pt a) (sub b a) ≤ dot (sub q a) (sub b a))) := by
  have h0 : FarthestInv sub dot a (sub b a) ⟨-(sub b a).y, (sub b a).x⟩ [] (-1, 0, 0) :=
    ⟨fun pt hpt => absurd hpt (List.not_mem_nil pt), Or.inl ⟨rfl, rfl, rfl⟩⟩
  have h := pointFarthestLoop_invariant sub dot a (sub b a) ⟨-(sub b a).y, (sub b a).x⟩
    points [] _ h0
  simp only [List.nil_append, List.length_nil] at h
  obtain ⟨hall, hidx⟩ := h
  have hres : PointFarthestFromEdge sub dot a b points
      = (pointFarthestLoop sub dot a (sub b a) ⟨-(sub b a).y, (sub b a).x⟩ points 0
          (-1, 0, 0)).1 := rfl
  rcases hidx with ⟨h1, h2, h3⟩ | ⟨i, q, h1, h2, h3, h4, h5⟩
  · left
    refine ⟨by rw [hres, h1], fun pt hpt => ?_⟩
    have hn := hall pt hpt
    rw [h2, h3] at hn
    push_neg at hn
    rcases lt_or_eq_of_le hn.1 with hlt | heq
    · exact Or.inl hlt
    · exact Or.inr ⟨heq, hn.2 heq⟩
  · right
    refine ⟨i, q, by rw [hres, h1], h2, ?_, fun pt hpt => ?_⟩
    · rw [h3, h4]
      exact h5
    · have hn := hall pt hpt
      rw [← h3, ← h4] at hn
      push_neg at hn
      rcases lt_or_eq_of_le hn.1 with hlt | heq
      · exact Or.inl hlt
      · exact Or.inr ⟨heq, hn.2 heq⟩

/-- C16 (failing input): for a = (0,0), b = (1,0) and the list [(0,-2), (0,1)]
the code returns 1 although the point at index 0 is at distance 2 from the line
`a-b` and the point at index 1 at distance 1; and for the one-point list
[(0,-1)] it returns -1, which is no valid index.  Every operation on these
inputs is exact in `float32`, so `sub` and `dot` are `Vec2.Sub` and `Vec2.Dot`. -/
theorem PointFarthestFromEdge_right_side :
    (⟨0, 0⟩ : Vec2 ℚ) ≠ ⟨1, 0⟩ ∧
    PointFarthestFromEdge Vec2.Sub Vec2.Dot (⟨0, 0⟩ : Vec2 ℚ) ⟨1, 0⟩ [⟨0, -2⟩, ⟨0, 1⟩] = 1 ∧
    PointFarthestFromEdge Vec2.Sub Vec2.Dot (⟨0, 0⟩ : Vec2 ℚ) ⟨1, 0⟩ [⟨0, -1⟩] = -1 ∧
    ¬ (0 ≤ PointFarthestFromEdge Vec2.Sub Vec2.Dot (⟨0, 0⟩ : Vec2 ℚ) ⟨1, 0⟩ [⟨0, -1⟩] ∧
      PointFarthestFromEdge Vec2.Sub Vec2.Dot (⟨0, 0⟩ : Vec2 ℚ) ⟨1, 0⟩ [⟨0, -1⟩]
        < (([⟨0, -1⟩] : List (Vec2 ℚ)).length : Int)) := by
  have e1 : PointFarthestFromEdge Vec2.Sub Vec2.Dot (⟨0, 0⟩ : Vec2 ℚ) ⟨1, 0⟩ [⟨0, -1⟩]
      = -1 := by
    norm_num [PointFarthestFromEdge, pointFarthestLoop, Vec2.Sub, Vec2.Dot]
  refine ⟨by simp, ?_, e1, ?_⟩
  · norm_num [PointFarthestFromEdge, pointFarthestLoop, Vec2.Sub, Vec2.Dot]
  · rw [e1]
    norm_num

/-- The scan follows the offsets as the foundation computes them: for a = (0,0),
b = (3,1) and the points (-10^8, 0), (-10^8, 1), when the dot product returns
10^8 and -3*10^8 for both points, as the `float32` rounding of 100000003 and
-299999999 does, the result is 0, whereas the exact operations give 1. -/
theorem PointFarthestFromEdge_follows_dot (dot : Vec2 ℚ → Vec2 ℚ → ℚ)
    (h0d : dot ⟨-100000000, 0⟩ ⟨-1, 3⟩ = 100000000)
    (h0r : dot ⟨-100000000, 0⟩ ⟨3, 1⟩ = -300000000)
    (h1d : dot ⟨-100000000, 1⟩ ⟨-1, 3⟩ = 100000000)
    (h1r : dot ⟨-100000000, 1⟩ ⟨3, 1⟩ = -300000000) :
    PointFarthestFromEdge Vec2.Sub dot ⟨0, 0⟩ ⟨3, 1⟩ [⟨-100000000, 0⟩, ⟨-100000000, 1⟩] = 0 ∧
    PointFarthestFromEdge Vec2.Sub Vec2.Dot (⟨0, 0⟩ : Vec2 ℚ) ⟨3, 1⟩
      [⟨-100000000, 0⟩, ⟨-100000000, 1⟩] = 1 := by
  constructor
  · norm_num [PointFarthestFromEdge, pointFarthestLoop, Vec2.Sub, h0d, h0r, h1d, h1r]
  · norm_num [PointFarthestFromEdge, pointFarthestLoop, Vec2.Sub, Vec2.Dot]

end geo

namespace geo

open glm

variable {K : Type} [LinearOrderedField K]

/-! ## The symmetric Schur rotation annihilates the selected entry -/

/-- The tangent chosen by `SymSchur2` is a root of `t^2 + 2*r*t - 1`, for `S` the
non-negative square root of `1 + r^2`. -/
theorem schur_tangent_root (r S : K) (hS : S * S = 1 + r * r) (hS0 : 0 ≤ S) :
    (if r ≥ 0 then 1 / (r + S) else -1 / (-r + S)) *
        (if r ≥ 0 then 1 / (r + S) else -1 / (-r + S)) +
      2 * r * (if r ≥ 0 then 1 / (r + S) else -1 / (-r + S)) - 1 = 0 := by
  have hSpos : 0 < S := by
    rcases eq_or_lt_of_le hS0 with h | h
    · rw [← h, zero_mul] at hS
      nlinarith [mul_self_nonneg r]
    · exact h
  split_ifs with hr
  · have hden : r + S ≠ 0 := ne_of_gt (by linarith)
    have hu : 1 / (r + S) * (r + S) = 1 := one_div_mul_cancel hden
    generalize 1 / (r + S) = u at hu ⊢
    linear_combination (1 + u * (S - r)) * hu - u * u * hS
  · have hr : r < 0 := not_le.mp hr
    have hden : -r + S ≠ 0 := ne_of_gt (by linarith)
    have hu : 1 / (-r + S) * (-r + S) = 1 := one_div_mul_cancel hden
    have e : -1 / (-r + S) = -(1 / (-r + S)) := by rw [neg_div]
    rw [e]
    generalize 1 / (-r + S) = u at hu ⊢
    linear_combination (1 + u * (S + r)) * hu - u * u * hS

/-- With the pair `(c, s)` of `SymSchur2` on an entry above the threshold, the
off-diagonal entry of the rotated 2×2 block vanishes:
`c*s*(a_pp - a_qq) + (c^2 - s^2)*a_pq = 0`. -/
theorem SymSchur2_block_zero (sqrt : K → K)
    (hs : ∀ x : K, 0 ≤ x → 0 ≤ sqrt x ∧ sqrt x * sqrt x = x)
    (a : Mat3 K) (p q : Fin 3) (hbig : math.Abs (a p q) > 0.0001) :
    (SymSchur2 sqrt a p q).1 * (SymSchur2 sqrt a p q).2 * (a p p - a q q) +
      ((SymSchur2 sqrt a p q).1 * (SymSchur2 sqrt a p q).1 -
        (SymSchur2 sqrt a p q).2 * (SymSchur2 sqrt a p q).2) * a p q = 0 := by
  have hne : a p q ≠ 0 := by
    intro h0
    rw [h0] at hbig
    norm_num [math.Abs] at hbig
  have hr : (a q q - a p p) / (2 * a p q) * (2 * a p q) = a q q - a p p :=
    div_mul_cancel₀ _ (mul_ne_zero two_ne_zero hne)
  have hpos : 0 ≤ 1 + (a q q - a p p) / (2 * a p q) * ((a q q - a p p) / (2 * a p q)) := by
    nlinarith [mul_self_nonneg ((a q q - a p p) / (2 * a p q))]
  obtain ⟨hS0, hS⟩ := hs _ hpos
  have hroot := schur_tangent_root _ _ hS hS0
  unfold SymSchur2
  rw [if_pos hbig]
  simp only []
  generalize (a q q - a p p) / (2 * a p q) = r at hr hroot ⊢
  generalize (if r ≥ 0 then 1 / (r + sqrt (1 + r * r)) else -1 / (-r + sqrt (1 + r * r))) = t
    at hroot ⊢
  generalize 1 / sqrt (1 + t * t) = c
  linear_combination (-(c * c * a p q)) * hroot + c * c * t * hr

set_option maxHeartbeats 1600000 in
/-- The `(p, q)` and `(q, p)` entries of `Jᵗ·A·J` for the rotation built by
`Jacobi` on an off-diagonal pair. -/
theorem rotated_offdiagonal_entries (A J : Mat3 K) (p q : Fin 3) (c s : K) (hpq : p ≠ q) :
    Mat3.Mul3 (Mat3.Mul3 (Mat3.Transposed (jacobiRotation J p q c s)) A)
        (jacobiRotation J p q c s) p q
      = c * s * (A p p - A q q) + c * c * A p q - s * s * A q p ∧
    Mat3.Mul3 (Mat3.Mul3 (Mat3.Transposed (jacobiRotation J p q c s)) A)
        (jacobiRotation J p q c s) q p
      = c * s * (A p p - A q q) + c * c * A q p - s * s * A p q := by
  simp only [Mat3.Mul3, Mat3.Transposed, Matrix.mul_apply, Fin.sum_univ_three,
    Matrix.transpose_apply, jacobiRotation_apply]
  revert hpq
  fin_cases p <;> fin_cases q <;> intro hpq <;>
    first
      | exact absurd rfl hpq
      | (constructor <;> simp <;> ring)

/-- The rotation of `SymSchur2` annihilates the selected entry of a symmetric
matrix, whenever `sqrt` is a non-negative square root. -/
theorem SymSchur2_annihilates_of_sqrt (sqrt : K → K)
    (hs : ∀ x : K, 0 ≤ x → 0 ≤ sqrt x ∧ sqrt x * sqrt x = x)
    (A J : Mat3 K) (p q : Fin 3) (hsym : ∀ i j : Fin 3, A i j = A j i) (hpq : p ≠ q)
    (hbig : math.Abs (A p q) > 0.0001) :
    Mat3.Mul3 (Mat3.Mul3 (Mat3.Transposed
        (jacobiRotation J p q (SymSchur2 sqrt A p q).1 (SymSchur2 sqrt A p q).2)) A)
        (jacobiRotation J p q (SymSchur2 sqrt A p q).1 (SymSchur2 sqrt A p q).2) p q = 0 ∧
    Mat3.Mul3 (Mat3.Mul3 (Mat3.Transposed
        (jacobiRotation J p q (SymSchur2 sqrt A p q).1 (SymSchur2 sqrt A p q).2)) A)
        (jacobiRotation J p q (SymSchur2 sqrt A p q).1 (SymSchur2 sqrt A p q).2) q p = 0 := by
  obtain ⟨e1, e2⟩ := rotated_offdiagonal_entries A J p q (SymSchur2 sqrt A p q).1
    (SymSchur2 sqrt A p q).2 hpq
  have hz := SymSchur2_block_zero sqrt hs A p q hbig
  rw [e1, e2, hsym q p]
  constructor <;> linear_combination hz

/-- C21: in exact real arithmetic, for a symmetric 3×3 matrix `A` and indices
`p < q` with `|A[p][q]| > 0.0001`, the pair `(c, s) = SymSchur2(A, p, q)` defines
the rotation `J` built by `Jacobi` (`J[p][p] = c`, `J[p][q] = s`, `J[q][p] = -s`,
`J[q][q] = c`, identity elsewhere) for which the `(p, q)` and `(q, p)` entries
of `Jᵗ·A·J` are zero. -/
theorem SymSchur2_annihilates (A J : Mat3 ℝ) (p q : Fin 3)
    (hsym : ∀ i j : Fin 3, A i j = A j i) (hpq : p < q)
    (hbig : math.Abs (A p q) > 0.0001) :
    (∀ i j : Fin 3,
      jacobiRotation J p q (SymSchur2 Real.sqrt A p q).1 (SymSchur2 Real.sqrt A p q).2 i j =
        if i = q ∧ j = q then (SymSchur2 Real.sqrt A p q).1
        else if i = q ∧ j = p then -(SymSchur2 Real.sqrt A p q).2
        else if i = p ∧ j = q then (SymSchur2 Real.sqrt A p q).2
        else if i = p ∧ j = p then (SymSchur2 Real.sqrt A p q).1
        else if i = j then 1 else 0) ∧
    Mat3.Mul3 (Mat3.Mul3 (Mat3.Transposed
        (jacobiRotation J p q (SymSchur2 Real.sqrt A p q).1 (SymSchur2 Real.sqrt A p q).2)) A)
        (jacobiRotation J p q (SymSchur2 Real.sqrt A p q).1 (SymSchur2 Real.sqrt A p q).2)
        p q = 0 ∧
    Mat3.Mul3 (Mat3.Mul3 (Mat3.Transposed
        (jacobiRotation J p q (SymSchur2 Real.sqrt A p q).1 (SymSchur2 Real.sqrt A p q).2)) A)
        (jacobiRotation J p q (SymSchur2 Real.sqrt A p q).1 (SymSchur2 Real.sqrt A p q).2)
        q p = 0 :=
  ⟨fun i j => jacobiRotation_apply J p q _ _ i j,
    SymSchur2_annihilates_of_sqrt Real.sqrt
      (fun x hx => ⟨Real.sqrt_nonneg x, Real.mul_self_sqrt hx⟩) A J p q hsym (ne_of_lt hpq) hbig⟩

/-- Witness for C21: the symmetric matrix with rows (2,1,0), (1,3,0), (0,0,1) and
the pair `(p, q) = (0, 1)`, whose entry `A[0][1] = 1` is above the threshold. -/
theorem SymSchur2_annihilates_witness :
    Mat3.Mul3 (Mat3.Mul3 (Mat3.Transposed
        (jacobiRotation 0 0 1 (SymSchur2 Real.sqrt (!![2, 1, 0; 1, 3, 0; 0, 0, 1] : Mat3 ℝ) 0 1).1
          (SymSchur2 Real.sqrt (!![2, 1, 0; 1, 3, 0; 0, 0, 1] : Mat3 ℝ) 0 1).2))
        (!![2, 1, 0; 1, 3, 0; 0, 0, 1] : Mat3 ℝ))
        (jacobiRotation 0 0 1 (SymSchur2 Real.sqrt (!![2, 1, 0; 1, 3, 0; 0, 0, 1] : Mat3 ℝ) 0 1).1
          (SymSchur2 Real.sqrt (!![2, 1, 0; 1, 3, 0; 0, 0, 1] : Mat3 ℝ) 0 1).2) 0 1 = 0 ∧
    Mat3.Mul3 (Mat3.Mul3 (Mat3.Transposed
        (jacobiRotation 0 0 1 (SymSchur2 Real.sqrt (!![2, 1, 0; 1, 3, 0; 0, 0, 1] : Mat3 ℝ) 0 1).1
          (SymSchur2 Real.sqrt (!![2, 1, 0; 1, 3, 0; 0, 0, 1] : Mat3 ℝ) 0 1).2))
        (!![2, 1, 0; 1, 3, 0; 0, 0, 1] : Mat3 ℝ))
        (jacobiRotation 0 0 1 (SymSchur2 Real.sqrt (!![2, 1, 0; 1, 3, 0; 0, 0, 1] : Mat3 ℝ) 0 1).1
          (SymSchur2 Real.sqrt (!![2, 1, 0; 1, 3, 0; 0, 0, 1] : Mat3 ℝ) 0 1).2) 1 0 = 0 :=
  (SymSchur2_annihilates (!![2, 1, 0; 1, 3, 0; 0, 0, 1] : Mat3 ℝ) 0 0 1
    (by intro i j; fin_cases i <;> fin_cases j <;> rfl) (by decide)
    (by norm_num [math.Abs])).2

end geo
